import Mathlib

/-!
Verification of tfs-go-hw1, the candle and user-trade report.

A shallow embedding of `main.go`.  The aggregation functions `ExtractCandles`,
`ExtractUsersTrans` and `FormatData` are translated statement by statement.

* Go maps with string keys are association lists with pairwise distinct keys
  (`GoMap`).  Go leaves the iteration order of a map unspecified; the embedding
  iterates in insertion order, and every statement about `FormatData` below is
  about the rows as a collection.
* `float64`, `time.Time` and the library calls on them (`time.Parse`,
  `strconv.ParseFloat`, `fmt.Sprintf("%.2f", ·)`, `Time.Format`) are not code of
  the repository: they are the fields of a `Runtime`.  The general statements
  hold for every runtime; `intRuntime` and `isoRuntime` are two concrete ones on
  which the functions are evaluated.
* A row is a `List String`; indexing past its end is the run-time crash of Go
  (`Fault.indexOutOfRange` / `none`).
* `log.Printf` / `log.Println` only write to the diagnostic stream and are not
  modelled; `checkErr` therefore has no effect on the computed values.
-/

namespace Hw1

/-! ## Go maps -/

/-- A Go `map[string]V`, kept as an association list in insertion order. -/
abbrev GoMap (V : Type) := List (String × V)

namespace GoMap

variable {V : Type}

/-- The comma-ok read `v, ok := m[k]`. -/
def find : GoMap V → String → Option V
  | [], _ => none
  | (k1, v) :: rest, k => if k1 = k then some v else find rest k

/-- The plain read `m[k]`, which yields the zero value `d` for an absent key. -/
def findD (m : GoMap V) (k : String) (d : V) : V :=
  (find m k).getD d

/-- The assignment `m[k] = v`. -/
def store : GoMap V → String → V → GoMap V
  | [], k, v => [(k, v)]
  | (k1, v1) :: rest, k, v =>
    if k1 = k then (k, v) :: rest else (k1, v1) :: store rest k v

/-- The keys of a map, in iteration order. -/
def keys (m : GoMap V) : List String := m.map Prod.fst

/-- The representation invariant of a map: no key occurs twice. -/
def WF (m : GoMap V) : Prop := (keys m).Nodup

end GoMap

/-! ## The language runtime -/

/-- The `float64` operations and library calls used by `main.go`, over a type
`F` of `float64` values, a type `T` of `time.Time` values and a type `E` of
error values. -/
structure Runtime (F T E : Type) where
  /-- The comparison `a < b` on `float64`; `a > b` is `lt b a`. -/
  lt : F → F → Bool
  /-- The subtraction `a - b` on `float64`. -/
  sub : F → F → F
  /-- The zero value of `float64`. -/
  zero : F
  /-- The zero value of `time.Time`. -/
  zeroTime : T
  /-- The call `time.Parse(time.RFC3339, s)`. -/
  parseTime : String → Except E T
  /-- The call `strconv.ParseFloat(s, 64)`: a value is returned in every case,
  together with the error if there is one. -/
  parseFloat : String → F × Option E
  /-- The call `fmt.Sprintf("%.2f", x)`. -/
  sprintf2 : F → String
  /-- The call `t.Format("2006-01-02T15:04:05Z")`. -/
  formatTime : T → String

/-- How a call of `ExtractCandles` can end without a map. -/
inductive Fault (E : Type) where
  /-- The statement `return nil, err`. -/
  | returned (e : E)
  /-- A row index past the end of the row. -/
  | indexOutOfRange
  deriving DecidableEq, Repr

/-! ## Data model -/

/-- The struct `CandleNote`. -/
structure CandleNote (F T : Type) where
  name : String
  minPrice : F
  maxPrice : F
  income : F
  minPriceTime : T
  maxPriceTime : T
  deriving DecidableEq, Repr

/-- The struct `UserNote`; a ticker is a map with the keys `"buyPrice"`,
`"salePrice"` and `"income"`. -/
structure UserNote (F : Type) where
  id : String
  tickers : GoMap (GoMap F)
  deriving DecidableEq, Repr

section Code

variable {F T E : Type}

/-- The function `StringToFloat`: the parsed value and the error, if any. -/
def StringToFloat (rt : Runtime F T E) (s : String) : F × Option E :=
  match rt.parseFloat s with
  | (f, some err) => (f, some err)
  | (f, none) => (f, none)

/-- The zero value of `CandleNote`, read from the map for an absent key. -/
def CandleNote.zeroValue (rt : Runtime F T E) : CandleNote F T :=
  ⟨"", rt.zero, rt.zero, rt.zero, rt.zeroTime, rt.zeroTime⟩

/-- The zero value of `UserNote`. -/
def UserNote.zeroValue : UserNote F := ⟨"", []⟩

/-- The update branch of the loop body of `ExtractCandles` (lines 65-75). -/
def updateNote (rt : Runtime F T E) (note : CandleNote F T) (t : T)
    (maxPrice minPrice : F) : CandleNote F T :=
  let note1 :=
    if rt.lt minPrice note.minPrice then
      { note with minPrice := minPrice, minPriceTime := t }
    else note
  let note2 :=
    if rt.lt note1.maxPrice maxPrice then
      { note1 with maxPrice := maxPrice, maxPriceTime := t }
    else note1
  { note2 with income := rt.sub note2.maxPrice note2.minPrice }

/-- One iteration of the loop of `ExtractCandles` on the row `candle`. -/
def candleStep (rt : Runtime F T E) (maxRevenueMap : GoMap (CandleNote F T))
    (candle : List String) : Except (Fault E) (GoMap (CandleNote F T)) :=
  match candle[1]? with
  | none => .error .indexOutOfRange
  | some c1 =>
    match rt.parseTime c1 with
    | .error err => .error (.returned err)
    | .ok t =>
      match candle[3]? with
      | none => .error .indexOutOfRange
      | some c3 =>
        let maxPrice := (StringToFloat rt c3).1
        match candle[4]? with
        | none => .error .indexOutOfRange
        | some c4 =>
          let minPrice := (StringToFloat rt c4).1
          match candle[0]? with
          | none => .error .indexOutOfRange
          | some c0 =>
            match maxRevenueMap.find c0 with
            | some note =>
              .ok (maxRevenueMap.store c0 (updateNote rt note t maxPrice minPrice))
            | none =>
              .ok (maxRevenueMap.store c0
                ⟨c0, minPrice, maxPrice, rt.sub maxPrice minPrice, t, t⟩)

/-- The loop of `ExtractCandles`, started from the map `maxRevenueMap`. -/
def candleLoop (rt : Runtime F T E) :
    GoMap (CandleNote F T) → List (List String) →
      Except (Fault E) (GoMap (CandleNote F T))
  | maxRevenueMap, [] => .ok maxRevenueMap
  | maxRevenueMap, candle :: rest =>
    match candleStep rt maxRevenueMap candle with
    | .error f => .error f
    | .ok m => candleLoop rt m rest

/-- The function `ExtractCandles`. -/
def ExtractCandles (rt : Runtime F T E) (candles : List (List String)) :
    Except (Fault E) (GoMap (CandleNote F T)) :=
  candleLoop rt [] candles

/-- One iteration of the loop of `ExtractUsersTrans` on the row `user`; `none`
is the crash of a row index past the end of the row.  The ticker maps are
shared by reference in Go, so the writes through `note.tickers` reach
`usersInfo`. -/
def usersStep (rt : Runtime F T E) (usersInfo : GoMap (UserNote F))
    (user : List String) : Option (GoMap (UserNote F)) :=
  match user[0]? with
  | none => none
  | some u0 =>
    match usersInfo.find u0 with
    | some note =>
      match user[2]? with
      | none => none
      | some u2 =>
        match note.tickers.find u2 with
        | some ticker =>
          match user[4]? with
          | none => none
          | some u4 =>
            let salePrice := (StringToFloat rt u4).1
            let ticker1 := ticker.store "salePrice" salePrice
            let ticker2 := ticker1.store "income"
              (rt.sub (ticker1.findD "salePrice" rt.zero)
                (ticker1.findD "buyPrice" rt.zero))
            some (usersInfo.store u0
              { note with tickers := note.tickers.store u2 ticker2 })
        | none =>
          match user[3]? with
          | none => none
          | some u3 =>
            let buyPrice := (StringToFloat rt u3).1
            some (usersInfo.store u0
              { note with tickers := note.tickers.store u2 [("buyPrice", buyPrice)] })
    | none =>
      match user[3]? with
      | none => none
      | some u3 =>
        let buyPrice := (StringToFloat rt u3).1
        match user[2]? with
        | none => none
        | some u2 =>
          some (usersInfo.store u0 ⟨u0, [(u2, [("buyPrice", buyPrice)])]⟩)

/-- The loop of `ExtractUsersTrans`, started from the map `usersInfo`. -/
def usersLoop (rt : Runtime F T E) :
    GoMap (UserNote F) → List (List String) → Option (GoMap (UserNote F))
  | usersInfo, [] => some usersInfo
  | usersInfo, user :: rest =>
    match usersStep rt usersInfo user with
    | none => none
    | some m => usersLoop rt m rest

/-- The function `ExtractUsersTrans`. -/
def ExtractUsersTrans (rt : Runtime F T E) (users : List (List String)) :
    Option (GoMap (UserNote F)) :=
  usersLoop rt [] users

/-- The row that the inner loop body of `FormatData` appends for the user
`user` and the entry `key ↦ ticker` of that user (lines 125-135). -/
def formatLine (rt : Runtime F T E) (maxRevenueMap : GoMap (CandleNote F T))
    (user key : String) (ticker : GoMap F) : List String :=
  let userID := user
  let userRevenue := ticker.findD "income" rt.zero
  let maxRevenue := (maxRevenueMap.findD key (CandleNote.zeroValue rt)).income
  let diff := rt.sub maxRevenue userRevenue
  let timeToSale :=
    rt.formatTime (maxRevenueMap.findD key (CandleNote.zeroValue rt)).maxPriceTime
  let timeToBuy :=
    rt.formatTime (maxRevenueMap.findD key (CandleNote.zeroValue rt)).minPriceTime
  [userID, key, rt.sprintf2 userRevenue, rt.sprintf2 maxRevenue, rt.sprintf2 diff,
    timeToSale, timeToBuy]

/-- The function `FormatData`. -/
def FormatData (rt : Runtime F T E) (maxRevenueMap : GoMap (CandleNote F T))
    (usersInfo : GoMap (UserNote F)) : List (List String) :=
  (GoMap.keys usersInfo).flatMap fun user =>
    (usersInfo.findD user UserNote.zeroValue).tickers.map fun entry =>
      formatLine rt maxRevenueMap user entry.1 entry.2

/-! ## Reading a row

The values that the loop bodies read from a row, named for the statements
below.  On a row with at least five fields they are the values of the
corresponding local variables of the loop body. -/

/-- The field `row[i]` of a row that has it. -/
def field (row : List String) (i : Nat) : String := row.getD i ""

/-- The key `candle[0]` under which `ExtractCandles` files a row. -/
def candleName (candle : List String) : String := field candle 0

/-- The local `maxPrice` of `ExtractCandles`: the parsed `candle[3]`. -/
def candleHigh (rt : Runtime F T E) (candle : List String) : F :=
  (StringToFloat rt (field candle 3)).1

/-- The local `minPrice` of `ExtractCandles`: the parsed `candle[4]`. -/
def candleLow (rt : Runtime F T E) (candle : List String) : F :=
  (StringToFloat rt (field candle 4)).1

/-- The local `t` of `ExtractCandles`: the parsed `candle[1]`, if it parses. -/
def candleTime (rt : Runtime F T E) (candle : List String) : Option T :=
  match rt.parseTime (field candle 1) with
  | .ok t => some t
  | .error _ => none

/-- The key `user[0]` of a trade row. -/
def tradeUser (user : List String) : String := field user 0

/-- The key `user[2]` of a trade row. -/
def tradeTicker (user : List String) : String := field user 2

/-- The local `buyPrice` of `ExtractUsersTrans`: the parsed `user[3]`. -/
def tradeBuy (rt : Runtime F T E) (user : List String) : F :=
  (StringToFloat rt (field user 3)).1

/-- The local `salePrice` of `ExtractUsersTrans`: the parsed `user[4]`. -/
def tradeSale (rt : Runtime F T E) (user : List String) : F :=
  (StringToFloat rt (field user 4)).1

/-- Whether a trade row belongs to the pair `(u, i)`. -/
def tradeOf (u i : String) (user : List String) : Bool :=
  decide (tradeUser user = u ∧ tradeTicker user = i)

/-- The ticker map stored for the pair `(u, i)`, if there is one. -/
def tickerOf (usersInfo : GoMap (UserNote F)) (u i : String) : Option (GoMap F) :=
  match usersInfo.find u with
  | some note => note.tickers.find i
  | none => none

/-- The `(userId, instrument)` fields of an output row. -/
def rowPair (row : List String) : String × String := (field row 0, field row 1)

/-- The representation invariant of a user map: the user keys are pairwise
distinct and so are the keys of every ticker map. -/
def UsersWF (usersInfo : GoMap (UserNote F)) : Prop :=
  GoMap.WF usersInfo ∧ ∀ entry ∈ usersInfo, GoMap.WF entry.2.tickers

/-- The summary that one iteration of `ExtractCandles` writes: the update of
the summary `old` read from the map, or the fresh summary of line 78. -/
def nextNote (rt : Runtime F T E) (old : Option (CandleNote F T)) (name : String)
    (t : T) (maxPrice minPrice : F) : CandleNote F T :=
  match old with
  | some note => updateNote rt note t maxPrice minPrice
  | none => ⟨name, minPrice, maxPrice, rt.sub maxPrice minPrice, t, t⟩

/-- The effect of one row on the summary of the instrument `k`. -/
def summaryStep (rt : Runtime F T E) (k : String) (old : Option (CandleNote F T))
    (candle : List String) : Option (CandleNote F T) :=
  if candleName candle = k then
    match candleTime rt candle with
    | some t => some (nextNote rt old k t (candleHigh rt candle) (candleLow rt candle))
    | none => old
  else old

/-- The first row of the instrument `k` whose low price is `x`. -/
def firstLow [DecidableEq F] (rt : Runtime F T E) (k : String) (x : F)
    (candles : List (List String)) : Option (List String) :=
  candles.find? fun candle => decide (candleName candle = k ∧ candleLow rt candle = x)

/-- The first row of the instrument `k` whose high price is `x`. -/
def firstHigh [DecidableEq F] (rt : Runtime F T E) (k : String) (x : F)
    (candles : List (List String)) : Option (List String) :=
  candles.find? fun candle => decide (candleName candle = k ∧ candleHigh rt candle = x)

/-- The summary `note` records the extremes of the rows of `k` among `seen`:
no low price is below `minPrice`, no high price is above `maxPrice`, and each
extreme carries the timestamp of the first row that attains it. -/
def Summarises [DecidableEq F] (rt : Runtime F T E) (k : String)
    (seen : List (List String)) (note : CandleNote F T) : Prop :=
  (∀ r ∈ seen, candleName r = k → rt.lt (candleLow rt r) note.minPrice = false) ∧
  (∃ r, firstLow rt k note.minPrice seen = some r ∧
    candleTime rt r = some note.minPriceTime) ∧
  (∀ r ∈ seen, candleName r = k → rt.lt note.maxPrice (candleHigh rt r) = false) ∧
  (∃ r, firstHigh rt k note.maxPrice seen = some r ∧
    candleTime rt r = some note.maxPriceTime)

/-- The order laws of `<` on `float64`: nothing is below itself, and `<` is
transitive. -/
def StrictOrder (rt : Runtime F T E) : Prop :=
  (∀ a, rt.lt a a = false) ∧
  (∀ a b c, rt.lt a b = true → rt.lt b c = true → rt.lt a c = true)

/-- Every row has the five fields that the loop bodies read. -/
def RowsOK (rows : List (List String)) : Prop := ∀ r ∈ rows, 5 ≤ r.length

/-- Every timestamp field parses. -/
def TimesOK (rt : Runtime F T E) (candles : List (List String)) : Prop :=
  ∀ r ∈ candles, ∃ t, candleTime rt r = some t

/-- The state of the instrument `k` after the rows `seen`: no summary while no
row of `k` was seen, and afterwards a summary that records their extremes. -/
def KeyInv [DecidableEq F] (rt : Runtime F T E) (k : String)
    (seen : List (List String)) (old : Option (CandleNote F T)) : Prop :=
  match old with
  | none => ∀ x ∈ seen, candleName x ≠ k
  | some note => Summarises rt k seen note

/-- The first row whose timestamp does not parse. -/
def firstBadTime (rt : Runtime F T E) (candles : List (List String)) :
    Option (List String) :=
  candles.find? fun candle => (candleTime rt candle).isNone

/-- The sale branch of `ExtractUsersTrans` on an existing ticker (lines 92-95):
`salePrice` is written, then `income` from the stored sale and buy prices. -/
def saleUpdate (rt : Runtime F T E) (ticker : GoMap F) (salePrice : F) : GoMap F :=
  let ticker1 := ticker.store "salePrice" salePrice
  ticker1.store "income"
    (rt.sub (ticker1.findD "salePrice" rt.zero) (ticker1.findD "buyPrice" rt.zero))

/-- The ticker that one iteration of `ExtractUsersTrans` writes for the pair of
the row: the sale update of the ticker `old` read from the map, or the fresh
ticker that holds the buy price only. -/
def nextTicker (rt : Runtime F T E) (old : Option (GoMap F)) (user : List String) :
    GoMap F :=
  match old with
  | some ticker => saleUpdate rt ticker (tradeSale rt user)
  | none => [("buyPrice", tradeBuy rt user)]

/-- The user entry that one iteration of `ExtractUsersTrans` writes. -/
def nextUser (rt : Runtime F T E) (old : Option (UserNote F)) (user : List String) :
    UserNote F :=
  match old with
  | some note =>
    { note with
      tickers := (note.tickers.store (tradeTicker user)
        (nextTicker rt (note.tickers.find (tradeTicker user)) user)) }
  | none => ⟨tradeUser user, [(tradeTicker user, [("buyPrice", tradeBuy rt user)])]⟩

/-- The effect of one row on the ticker of the pair `(u, i)`. -/
def tickerStep (rt : Runtime F T E) (u i : String) (old : Option (GoMap F))
    (user : List String) : Option (GoMap F) :=
  if tradeOf u i user = true then some (nextTicker rt old user) else old

/-- Five trade rows of two users for `intRuntime`. -/
def sampleTrades : List (List String) :=
  [["ann", "1", "BTC", "95", "0", "x"],
   ["bob", "2", "BTC", "70", "0", "x"],
   ["ann", "3", "ETH", "45", "0", "x"],
   ["ann", "4", "BTC", "0", "110", "x"],
   ["bob", "5", "DOGE", "3", "0", "x"]]

/-- The prices that `ExtractCandles` reads from the rows. -/
def prices (rt : Runtime F T E) (candles : List (List String)) : List F :=
  candles.flatMap fun candle => [candleLow rt candle, candleHigh rt candle]

/-- The prices of the rows are ordered numbers: any two of them are equal or
one is below the other (on `float64` this excludes the value NaN). -/
def PricesComparable (rt : Runtime F T E) (candles : List (List String)) : Prop :=
  ∀ a ∈ prices rt candles, ∀ b ∈ prices rt candles,
    rt.lt a b = true ∨ a = b ∨ rt.lt b a = true

/-- On the prices of the rows the difference `b - a` of `a ≤ b` is zero or above
zero (on `float64` this holds of finite values; the difference of two equal
infinities is NaN). -/
def SpreadsNonneg (rt : Runtime F T E) (candles : List (List String)) : Prop :=
  ∀ a ∈ prices rt candles, ∀ b ∈ prices rt candles,
    (a = b ∨ rt.lt a b = true) → (rt.sub b a = rt.zero ∨ rt.lt rt.zero (rt.sub b a) = true)

/-- The rows of the instrument `k`, in input order. -/
def candlesOf (k : String) (candles : List (List String)) : List (List String) :=
  candles.filter fun candle => decide (candleName candle = k)

/-- The runtime `rt` with the errors of `strconv.ParseFloat` erased: every parse
returns the value that `rt` returns and no error. -/
def silent (rt : Runtime F T E) : Runtime F T E :=
  { rt with parseFloat := fun s => ((rt.parseFloat s).1, none) }

/-- The number written in a field, read by `strconv.ParseFloat`. -/
def written (rt : Runtime F T E) (s : String) : F := (rt.parseFloat s).1

/-- The 2-decimal rendering of `x` reads back as `x`: `x` has at most two
decimal digits. -/
def TwoDecimals (rt : Runtime F T E) (x : F) : Prop := written rt (rt.sprintf2 x) = x

end Code

/-! ## A concrete runtime

Whole-number prices and timestamps counted in seconds, written in decimal.  It
is used to evaluate the functions on concrete rows. -/

/-- The number written by a list of decimal digits, continuing from `acc`. -/
def digitsValue : List Char → Nat → Option Nat
  | [], acc => some acc
  | c :: cs, acc =>
    if 48 ≤ c.toNat ∧ c.toNat ≤ 57 then digitsValue cs (10 * acc + (c.toNat - 48))
    else none

/-- A non-empty string of decimal digits, read as a number. -/
def readNat (s : String) : Option Nat :=
  match s.data with
  | [] => none
  | cs => digitsValue cs 0

/-- An optional minus sign followed by decimal digits, read as an integer. -/
def readInt (s : String) : Option Int :=
  match s.data with
  | '-' :: cs => (readNat ⟨cs⟩).map fun n => - (n : Int)
  | _ => (readNat s).map fun n => (n : Int)

/-- The runtime with integer prices and timestamps in seconds. -/
def intRuntime : Runtime Int Nat String where
  lt a b := decide (a < b)
  sub a b := a - b
  zero := 0
  zeroTime := 0
  parseTime s :=
    match readNat s with
    | some n => .ok n
    | none => .error s
  parseFloat s :=
    match readInt s with
    | some n => (n, none)
    | none => (0, some s)
  sprintf2 x := toString x ++ ".00"
  formatTime t := toString t

/-- Three candle rows of two instruments for `intRuntime`. -/
def sampleCandles : List (List String) :=
  [["BTC", "1", "95", "100", "90", "97"],
   ["ETH", "2", "45", "50", "40", "41"],
   ["BTC", "3", "96", "120", "95", "99"]]

/-- Candle rows whose second row has a timestamp that does not parse. -/
def brokenCandles : List (List String) :=
  [["BTC", "1", "95", "100", "90", "97"],
   ["ETH", "soon", "45", "50", "40", "41"],
   ["BTC", "later", "96", "120", "95", "99"]]

/-- The candle map of `sampleCandles`. -/
def sampleNotes : GoMap (CandleNote Int Nat) :=
  [("BTC", ⟨"BTC", 90, 120, 30, 1, 3⟩), ("ETH", ⟨"ETH", 40, 50, 10, 2, 2⟩)]

/-- The user map of `sampleTrades`. -/
def sampleUsers : GoMap (UserNote Int) :=
  [("ann", ⟨"ann", [("BTC", [("buyPrice", 95), ("salePrice", 110), ("income", 15)]),
      ("ETH", [("buyPrice", 45)])]⟩),
   ("bob", ⟨"bob", [("BTC", [("buyPrice", 70)]), ("DOGE", [("buyPrice", 3)])]⟩)]

/-! ## A runtime with decimal prices and RFC 3339 timestamps

Prices are exact decimals counted in millionths; timestamps keep the wall-clock
fields as written together with the UTC offset.  The parsers cover plain
decimal numerals and the RFC 3339 grammar with two-digit fields; the functions
are evaluated below only on such inputs, with values far from a rounding
boundary of `%.2f`. -/

/-- A `time.Time` value: the wall-clock reading in its own zone, and the offset
of that zone east of UTC in seconds. -/
structure GoTime where
  year : Nat
  month : Nat
  day : Nat
  hour : Nat
  minute : Nat
  second : Nat
  nanos : Nat
  offset : Int
  deriving DecidableEq, Repr

/-- Whether a character is a decimal digit. -/
def isDigit (c : Char) : Bool := decide (48 ≤ c.toNat ∧ c.toNat ≤ 57)

/-- The number written by two decimal digits. -/
def twoDigits (a b : Char) : Option Nat :=
  if isDigit a = true ∧ isDigit b = true then some ((a.toNat - 48) * 10 + (b.toNat - 48))
  else none

/-- The fraction written by the digits after the point, in units of `w / 10`
for the first digit; digits below the unit are dropped. -/
def fracValue : List Char → Nat → Option Nat
  | [], _ => some 0
  | c :: cs, w =>
    if isDigit c = true then
      (fracValue cs (w / 10)).map fun v => (c.toNat - 48) * (w / 10) + v
    else none

/-- An unsigned decimal numeral `ddd`, `ddd.ddd`, `.ddd` or `ddd.`, in
millionths. -/
def readDecimal (cs : List Char) : Option Nat :=
  let whole := cs.takeWhile fun c => c != '.'
  match cs.dropWhile fun c => c != '.' with
  | [] => if whole = [] then none else (digitsValue whole 0).map fun n => n * 1000000
  | _ :: frac =>
    if whole = [] ∧ frac = [] then none
    else
      match digitsValue whole 0, fracValue frac 1000000 with
      | some n, some f => some (n * 1000000 + f)
      | _, _ => none

/-- A model of `strconv.ParseFloat(s, 64)` on decimal numerals: the value in
millionths, or zero and an error for text that is not a numeral.  Exponents,
hexadecimal numerals and the words for infinity and NaN, which `ParseFloat` also
reads, are outside the model and are not used below. -/
def parseDecimal (s : String) : Int × Option String :=
  let body : Bool × List Char :=
    match s.data with
    | '-' :: cs => (true, cs)
    | '+' :: cs => (false, cs)
    | cs => (false, cs)
  match readDecimal body.2 with
  | some n => (if body.1 then - (n : Int) else (n : Int), none)
  | none => (0, some "invalid syntax")

/-- A number below one hundred written with two digits. -/
def pad2 (n : Nat) : String := if n < 10 then "0" ++ toString n else toString n

/-- A number written with at least four digits. -/
def pad4 (n : Nat) : String :=
  if n < 10 then "000" ++ toString n
  else if n < 100 then "00" ++ toString n
  else if n < 1000 then "0" ++ toString n
  else toString n

/-- The number of hundredths nearest to `a` millionths, ties to even. -/
def roundHundredths (a : Nat) : Nat :=
  let q := a / 10000
  let r := a % 10000
  if r < 5000 then q else if 5000 < r then q + 1 else if q % 2 = 0 then q else q + 1

/-- A model of `fmt.Sprintf("%.2f", x)` for `x` in millionths. -/
def renderDecimal2 (x : Int) : String :=
  let h := roundHundredths x.natAbs
  (if x < 0 then "-" else "") ++ toString (h / 100) ++ "." ++ pad2 (h % 100)

/-- Whether a year is a leap year. -/
def isLeap (y : Nat) : Bool := decide ((y % 4 = 0 ∧ y % 100 ≠ 0) ∨ y % 400 = 0)

/-- The number of days of a month. -/
def daysIn (y m : Nat) : Nat :=
  if m = 2 then (if isLeap y = true then 29 else 28)
  else if m = 4 ∨ m = 6 ∨ m = 9 ∨ m = 11 then 30
  else 31

/-- The zone of an RFC 3339 timestamp, `Z` or `+hh:mm` or `-hh:mm`, as an
offset in seconds. -/
def readZone : List Char → Option Int
  | ['Z'] => some 0
  | [sg, h1, h2, ':', m1, m2] =>
    match twoDigits h1 h2, twoDigits m1 m2 with
    | some h, some m =>
      if h ≤ 23 ∧ m ≤ 59 then
        if sg = '+' then some ((h * 3600 + m * 60 : Nat) : Int)
        else if sg = '-' then some (- ((h * 3600 + m * 60 : Nat) : Int))
        else none
      else none
    | _, _ => none
  | _ => none

/-- The part of an RFC 3339 timestamp after the seconds: an optional fraction
and the zone. -/
def readFractionZone (rest : List Char) : Option (Nat × Int) :=
  match rest with
  | '.' :: more =>
    let digits := more.takeWhile fun c => isDigit c
    if digits = [] then none
    else
      match fracValue digits 1000000000, readZone (more.dropWhile fun c => isDigit c) with
      | some n, some z => some (n, z)
      | _, _ => none
  | _ => (readZone rest).map fun z => (0, z)

/-- A model of `time.Parse(time.RFC3339, s)` on the RFC 3339 grammar
`YYYY-MM-DDTHH:MM:SS[.fraction](Z|+hh:mm|-hh:mm)`: the fields are checked
against their ranges and kept as written. -/
def parseRFC3339 (s : String) : Except String GoTime :=
  match s.data with
  | y1 :: y2 :: y3 :: y4 :: '-' :: m1 :: m2 :: '-' :: d1 :: d2 :: 'T' ::
      h1 :: h2 :: ':' :: n1 :: n2 :: ':' :: s1 :: s2 :: rest =>
    match twoDigits y1 y2, twoDigits y3 y4, twoDigits m1 m2, twoDigits d1 d2,
        twoDigits h1 h2, twoDigits n1 n2, twoDigits s1 s2, readFractionZone rest with
    | some ya, some yb, some mo, some d, some h, some mi, some sec, some (ns, z) =>
      if 1 ≤ mo ∧ mo ≤ 12 ∧ 1 ≤ d ∧ d ≤ daysIn (ya * 100 + yb) mo ∧
          h ≤ 23 ∧ mi ≤ 59 ∧ sec ≤ 59 then
        .ok ⟨ya * 100 + yb, mo, d, h, mi, sec, ns, z⟩
      else .error "out of range"
    | _, _, _, _, _, _, _, _ => .error "cannot parse"
  | _ => .error "cannot parse"

/-- A model of `t.Format("2006-01-02T15:04:05Z")`: the wall-clock reading of `t`
in its own zone, followed by the letter `Z` of the layout. -/
def formatLayoutZ (t : GoTime) : String :=
  pad4 t.year ++ "-" ++ pad2 t.month ++ "-" ++ pad2 t.day ++ "T" ++
    pad2 t.hour ++ ":" ++ pad2 t.minute ++ ":" ++ pad2 t.second ++ "Z"

/-- The days from 1970-01-01 to a date of the Gregorian calendar. -/
def daysFromCivil (y m d : Nat) : Int :=
  let y1 := if m ≤ 2 then y - 1 else y
  let era := y1 / 400
  let yoe := y1 % 400
  let mp := if 2 < m then m - 3 else m + 9
  let doy := (153 * mp + 2) / 5 + d - 1
  let doe := yoe * 365 + yoe / 4 - yoe / 100 + doy
  ((era * 146097 + doe : Nat) : Int) - 719468

/-- The instant of a time, in whole seconds since 1970-01-01T00:00:00Z. -/
def unixSeconds (t : GoTime) : Int :=
  daysFromCivil t.year t.month t.day * 86400 +
    ((t.hour * 3600 + t.minute * 60 + t.second : Nat) : Int) - t.offset

/-- The runtime with decimal prices in millionths and RFC 3339 timestamps. -/
def isoRuntime : Runtime Int GoTime String where
  lt a b := decide (a < b)
  sub a b := a - b
  zero := 0
  zeroTime := ⟨1, 1, 1, 0, 0, 0, 0, 0⟩
  parseTime := parseRFC3339
  parseFloat := parseDecimal
  sprintf2 := renderDecimal2
  formatTime := formatLayoutZ

/-- The fields of a candle row that `ExtractCandles` reads, with the field it
skips blanked and the fields after the fifth dropped. -/
def readFields (candle : List String) : List String :=
  [field candle 0, field candle 1, "", field candle 3, field candle 4]

/-- The candle map with the one summary of `BTC`: minimum 90 at
2023-01-01T00:00:00Z, maximum 120 at 2023-01-01T00:05:00Z, income 30. -/
def btcSummary : GoMap (CandleNote Int GoTime) :=
  [("BTC", ⟨"BTC", 90000000, 120000000, 30000000,
    ⟨2023, 1, 1, 0, 0, 0, 0, 0⟩, ⟨2023, 1, 1, 0, 5, 0, 0, 0⟩⟩)]

/-- Candle rows whose price fields are not numerals. -/
def noisyCandles : List (List String) :=
  [["BTC", "2023-01-01T00:00:00Z", "", "n/a", "90"],
   ["BTC", "2023-01-01T00:05:00Z", "", "120", "high"]]

/-- Trade rows whose price fields are not numerals. -/
def noisyTrades : List (List String) :=
  [["u", "2023-01-01T00:01:00Z", "BTC", "cheap", ""],
   ["u", "2023-01-01T00:04:00Z", "BTC", "", "110"]]

/-- A candle row whose timestamp has the UTC offset +02:00. -/
def offsetCandles : List (List String) :=
  [["BTC", "2023-01-01T02:00:00+02:00", "", "100", "90"]]

/-- A trade row on `BTC`. -/
def offsetTrades : List (List String) :=
  [["u", "2023-01-01T02:01:00+02:00", "BTC", "95", ""]]

/-- A candle row with the income 0.014. -/
def roundingCandles : List (List String) :=
  [["BTC", "2023-01-01T00:00:00Z", "", "0.014", "0"]]

/-- Two trade rows with the income 0.006. -/
def roundingTrades : List (List String) :=
  [["u", "2023-01-01T00:01:00Z", "BTC", "0", ""],
   ["u", "2023-01-01T00:02:00Z", "BTC", "", "0.006"]]

/-! ## A runtime with the special values of `float64`

The finite values are exact decimals in millionths, as in `isoRuntime`; NaN and
the two infinities compare and subtract as IEEE 754 prescribes. -/

/-- A `float64` value: NaN, an infinity, or a finite value in millionths. -/
inductive GoFloat where
  | nan
  | negInf
  | fin (x : Int)
  | posInf
  deriving DecidableEq, Repr

/-- The comparison `a < b` of `float64`: false whenever an operand is NaN. -/
def GoFloat.lt : GoFloat → GoFloat → Bool
  | .nan, _ => false
  | _, .nan => false
  | .negInf, .negInf => false
  | .negInf, _ => true
  | .fin _, .negInf => false
  | .fin a, .fin b => decide (a < b)
  | .fin _, .posInf => true
  | .posInf, _ => false

/-- The comparison `a <= b` of `float64`: false whenever an operand is NaN. -/
def GoFloat.le : GoFloat → GoFloat → Bool
  | .nan, _ => false
  | _, .nan => false
  | a, b => GoFloat.lt a b || decide (a = b)

/-- The subtraction `a - b` of `float64`. -/
def GoFloat.sub : GoFloat → GoFloat → GoFloat
  | .nan, _ => .nan
  | _, .nan => .nan
  | .posInf, .posInf => .nan
  | .negInf, .negInf => .nan
  | .posInf, _ => .posInf
  | .negInf, _ => .negInf
  | .fin _, .posInf => .negInf
  | .fin _, .negInf => .posInf
  | .fin a, .fin b => .fin (a - b)

/-- A model of `strconv.ParseFloat(s, 64)` on decimal numerals and on the words
`NaN`, `Inf`, `+Inf` and `-Inf`, which it reads without an error. -/
def parseGoFloat (s : String) : GoFloat × Option String :=
  if s = "NaN" then (.nan, none)
  else if s = "Inf" ∨ s = "+Inf" then (.posInf, none)
  else if s = "-Inf" then (.negInf, none)
  else ((.fin (parseDecimal s).1), (parseDecimal s).2)

/-- A model of `fmt.Sprintf("%.2f", x)`. -/
def renderGoFloat (x : GoFloat) : String :=
  match x with
  | .nan => "NaN"
  | .posInf => "+Inf"
  | .negInf => "-Inf"
  | .fin v => renderDecimal2 v

/-- The runtime of `isoRuntime` with NaN and the infinities among the prices. -/
def ieeeRuntime : Runtime GoFloat GoTime String where
  lt := GoFloat.lt
  sub := GoFloat.sub
  zero := .fin 0
  zeroTime := ⟨1, 1, 1, 0, 0, 0, 0, 0⟩
  parseTime := parseRFC3339
  parseFloat := parseGoFloat
  sprintf2 := renderGoFloat
  formatTime := formatLayoutZ

/-- Two rows of `BTC`; the high price of the first is NaN. -/
def nanFirst : List (List String) :=
  [["BTC", "2023-01-01T00:00:00Z", "", "NaN", "90"],
   ["BTC", "2023-01-01T00:05:00Z", "", "120", "95"]]

/-- The rows of `nanFirst` in the other order. -/
def nanLast : List (List String) :=
  [["BTC", "2023-01-01T00:05:00Z", "", "120", "95"],
   ["BTC", "2023-01-01T00:00:00Z", "", "NaN", "90"]]

/-- Two rows of `BTC`; both prices of the first are NaN. -/
def nanRows : List (List String) :=
  [["BTC", "2023-01-01T00:00:00Z", "", "NaN", "NaN"],
   ["BTC", "2023-01-01T00:05:00Z", "", "120", "95"]]

/-- A row of `BTC` whose high and low prices are both infinite. -/
def infiniteRow : List (List String) :=
  [["BTC", "2023-01-01T00:00:00Z", "", "Inf", "Inf"]]

/-! ## Maps: reading after writing -/

namespace GoMap

variable {V : Type}

theorem find_store (m : GoMap V) (k k1 : String) (v : V) :
    find (store m k v) k1 = if k = k1 then some v else find m k1 := by
  induction m with
  | nil => simp [store, find]
  | cons p rest ih =>
    obtain ⟨k0, v0⟩ := p
    by_cases h : k0 = k
    · subst h
      by_cases h1 : k0 = k1 <;> simp [store, find, h1]
    · by_cases h1 : k = k1
      · subst h1
        simp [store, find, h, ih]
      · by_cases h2 : k0 = k1
        · subst h2
          simp [store, find, h, h1]
        · simp [store, find, h, h1, h2, ih]

theorem find_store_self (m : GoMap V) (k : String) (v : V) :
    find (store m k v) k = some v := by
  simp [find_store]

theorem find_store_of_ne (m : GoMap V) {k k1 : String} (v : V) (h : k ≠ k1) :
    find (store m k v) k1 = find m k1 := by
  simp [find_store, h]

theorem mem_of_find {m : GoMap V} {k : String} {v : V} (h : find m k = some v) :
    (k, v) ∈ m := by
  induction m with
  | nil => simp [find] at h
  | cons p rest ih =>
    obtain ⟨k0, v0⟩ := p
    by_cases h0 : k0 = k
    · subst h0
      simp [find] at h
      simp [h]
    · simp [find, h0] at h
      exact List.mem_cons_of_mem _ (ih h)

theorem find_eq_none_iff (m : GoMap V) (k : String) :
    find m k = none ↔ k ∉ keys m := by
  induction m with
  | nil => simp [find, keys]
  | cons p rest ih =>
    obtain ⟨k0, v0⟩ := p
    by_cases h0 : k0 = k
    · subst h0
      simp [find, keys]
    · have h1 : ¬ k = k0 := fun h => h0 h.symm
      simp only [find, h0, if_false, ih]
      simp [keys, h1]

theorem find_of_mem {m : GoMap V} (hm : WF m) {k : String} {v : V} (h : (k, v) ∈ m) :
    find m k = some v := by
  induction m with
  | nil => simp at h
  | cons p rest ih =>
    obtain ⟨k0, v0⟩ := p
    have hnd : k0 ∉ keys rest ∧ WF rest := by
      simpa [WF, keys] using hm
    rcases List.mem_cons.mp h with h1 | h1
    · cases h1
      simp [find]
    · have hk : k ∈ keys rest := List.mem_map.mpr ⟨(k, v), h1, rfl⟩
      have h0 : ¬ k0 = k := fun e => hnd.1 (e ▸ hk)
      simp [find, h0, ih hnd.2 h1]

theorem mem_store {m : GoMap V} {k : String} {v : V} {p : String × V}
    (h : p ∈ store m k v) : p ∈ m ∨ p = (k, v) := by
  induction m with
  | nil => simpa [store] using h
  | cons q rest ih =>
    obtain ⟨k0, v0⟩ := q
    by_cases h0 : k0 = k
    · simp only [store, h0, if_true] at h
      rcases List.mem_cons.mp h with h1 | h1
      · exact Or.inr h1
      · exact Or.inl (List.mem_cons_of_mem _ h1)
    · simp only [store, h0, if_false] at h
      rcases List.mem_cons.mp h with h1 | h1
      · exact Or.inl (h1 ▸ List.mem_cons_self _ _)
      · rcases ih h1 with h2 | h2
        · exact Or.inl (List.mem_cons_of_mem _ h2)
        · exact Or.inr h2

theorem mem_keys_store (m : GoMap V) (k k1 : String) (v : V) :
    k1 ∈ keys (store m k v) ↔ k1 ∈ keys m ∨ k1 = k := by
  induction m with
  | nil => simp [store, keys]
  | cons q rest ih =>
    obtain ⟨k0, v0⟩ := q
    by_cases h0 : k0 = k
    · subst h0
      simp only [store, if_true, keys, List.map_cons, List.mem_cons]
      tauto
    · have ih1 : k1 ∈ List.map Prod.fst (store rest k v) ↔
          k1 ∈ List.map Prod.fst rest ∨ k1 = k := ih
      simp only [store, h0, if_false, keys, List.map_cons, List.mem_cons, ih1]
      tauto

theorem WF_store {m : GoMap V} (hm : WF m) (k : String) (v : V) : WF (store m k v) := by
  induction m with
  | nil => simp [store, WF, keys]
  | cons q rest ih =>
    obtain ⟨k0, v0⟩ := q
    have hnd : k0 ∉ keys rest ∧ WF rest := by
      simpa [WF, keys] using hm
    by_cases h0 : k0 = k
    · subst h0
      simpa [store, WF, keys] using hm
    · have h1 : k0 ∉ keys (store rest k v) := by
        rw [mem_keys_store]
        rintro (h | h)
        · exact hnd.1 h
        · exact h0 h
      have h2 : WF (store rest k v) := ih hnd.2
      simp only [store, h0, if_false, WF, keys, List.map_cons, List.nodup_cons]
      exact ⟨h1, h2⟩

end GoMap

/-! ## `ExtractCandles`: the loop, instrument by instrument -/

section Candles

variable {F T E : Type}

theorem candleStep_ok (rt : Runtime F T E) (m : GoMap (CandleNote F T))
    (r : List String) (t : T) (hlen : 5 ≤ r.length) (ht : candleTime rt r = some t) :
    candleStep rt m r = .ok (m.store (candleName r)
      (nextNote rt (m.find (candleName r)) (candleName r) t
        (candleHigh rt r) (candleLow rt r))) := by
  match r, hlen with
  | c0 :: c1 :: c2 :: c3 :: c4 :: rest, _ =>
    have hp : rt.parseTime c1 = .ok t := by
      simp only [candleTime, field, List.getD_cons_succ, List.getD_cons_zero] at ht
      cases hq : rt.parseTime c1 with
      | error err => simp [hq] at ht
      | ok t1 =>
        simp [hq] at ht
        rw [ht]
    cases hf : m.find c0 <;>
      simp [candleStep, hp, hf, nextNote, candleName, candleHigh, candleLow, field]

theorem candleLoop_find (rt : Runtime F T E) (rows : List (List String)) :
    ∀ m : GoMap (CandleNote F T), RowsOK rows → TimesOK rt rows →
      ∃ m1, candleLoop rt m rows = .ok m1 ∧
        ∀ k, m1.find k = rows.foldl (summaryStep rt k) (m.find k) := by
  induction rows with
  | nil =>
    intro m _ _
    exact ⟨m, rfl, fun k => rfl⟩
  | cons r rest ih =>
    intro m hlen htime
    obtain ⟨t, ht⟩ := htime r (List.mem_cons_self _ _)
    have hstep := candleStep_ok rt m r t (hlen r (List.mem_cons_self _ _)) ht
    obtain ⟨m1, hm1, hfind⟩ := ih
      (m.store (candleName r) (nextNote rt (m.find (candleName r)) (candleName r) t
        (candleHigh rt r) (candleLow rt r)))
      (fun x hx => hlen x (List.mem_cons_of_mem _ hx))
      (fun x hx => htime x (List.mem_cons_of_mem _ hx))
    refine ⟨m1, ?_, ?_⟩
    · simp only [candleLoop, hstep]
      exact hm1
    · intro k
      rw [hfind k, List.foldl_cons]
      congr 1
      by_cases hk : candleName r = k
      · subst hk
        simp [summaryStep, ht, GoMap.find_store_self]
      · simp [summaryStep, hk, GoMap.find_store_of_ne]

end Candles

/-! ## Tracking a running extreme

`R` is `<` for the minimum and `>` for the maximum; `val` reads the price of a
row. -/

section Tracking

variable {F T E : Type} [DecidableEq F]

theorem track_fresh (rt : Runtime F T E) (R : F → F → Bool) (hirr : ∀ a, R a a = false)
    (val : List String → F) (k : String) (seen : List (List String))
    (hnew : ∀ x ∈ seen, candleName x ≠ k)
    (r : List String) (hk : candleName r = k) (t : T) (ht : candleTime rt r = some t) :
    (∀ x ∈ seen ++ [r], candleName x = k → R (val x) (val r) = false) ∧
    (∃ x, (seen ++ [r]).find? (fun x => decide (candleName x = k ∧ val x = val r)) = some x ∧
      candleTime rt x = some t) := by
  constructor
  · intro x hx hxk
    rcases List.mem_append.mp hx with h | h
    · exact absurd hxk (hnew x h)
    · rw [List.mem_singleton.mp h]
      exact hirr _
  · refine ⟨r, ?_, ht⟩
    have hnone : seen.find? (fun x => decide (candleName x = k ∧ val x = val r)) = none := by
      rw [List.find?_eq_none]
      intro x hx
      simp [hnew x hx]
    rw [List.find?_append, hnone]
    simp [hk]

theorem track_skip (rt : Runtime F T E) (R : F → F → Bool)
    (val : List String → F) (k : String) (seen : List (List String)) (cur : F) (tcur : T)
    (h1 : ∀ x ∈ seen, candleName x = k → R (val x) cur = false)
    (h2 : ∃ x, seen.find? (fun x => decide (candleName x = k ∧ val x = cur)) = some x ∧
      candleTime rt x = some tcur)
    (r : List String) (hk : candleName r ≠ k) :
    (∀ x ∈ seen ++ [r], candleName x = k → R (val x) cur = false) ∧
    (∃ x, (seen ++ [r]).find? (fun x => decide (candleName x = k ∧ val x = cur)) = some x ∧
      candleTime rt x = some tcur) := by
  constructor
  · intro x hx hxk
    rcases List.mem_append.mp hx with h | h
    · exact h1 x h hxk
    · rw [List.mem_singleton.mp h] at hxk
      exact absurd hxk hk
  · obtain ⟨x, hx, hxt⟩ := h2
    exact ⟨x, by rw [List.find?_append, hx]; rfl, hxt⟩

theorem track_step (rt : Runtime F T E) (R : F → F → Bool) (hirr : ∀ a, R a a = false)
    (htr : ∀ a b c, R a b = true → R b c = true → R a c = true)
    (val : List String → F) (k : String) (seen : List (List String)) (cur : F) (tcur : T)
    (h1 : ∀ x ∈ seen, candleName x = k → R (val x) cur = false)
    (h2 : ∃ x, seen.find? (fun x => decide (candleName x = k ∧ val x = cur)) = some x ∧
      candleTime rt x = some tcur)
    (r : List String) (hk : candleName r = k) (t : T) (ht : candleTime rt r = some t) :
    (∀ x ∈ seen ++ [r], candleName x = k →
      R (val x) (if R (val r) cur = true then val r else cur) = false) ∧
    (∃ x, (seen ++ [r]).find? (fun x => decide (candleName x = k ∧
        val x = (if R (val r) cur = true then val r else cur))) = some x ∧
      candleTime rt x = some (if R (val r) cur = true then t else tcur)) := by
  by_cases hR : R (val r) cur = true
  · simp only [hR, if_true]
    have hlow : ∀ x ∈ seen, candleName x = k → R (val x) (val r) = false := by
      intro x hx hxk
      cases hc : R (val x) (val r) with
      | false => rfl
      | true =>
        have := htr _ _ _ hc hR
        rw [h1 x hx hxk] at this
        exact absurd this (by simp)
    constructor
    · intro x hx hxk
      rcases List.mem_append.mp hx with h | h
      · exact hlow x h hxk
      · rw [List.mem_singleton.mp h]
        exact hirr _
    · refine ⟨r, ?_, ht⟩
      have hnone : seen.find? (fun x => decide (candleName x = k ∧ val x = val r)) = none := by
        rw [List.find?_eq_none]
        intro x hx
        simp only [decide_eq_true_eq, not_and]
        intro hxk hval
        have h3 := h1 x hx hxk
        rw [hval, hR] at h3
        exact absurd h3 (by simp)
      rw [List.find?_append, hnone]
      simp [hk]
  · have hR1 : R (val r) cur = false := by simpa using hR
    simp only [hR1, Bool.false_eq_true, if_false]
    constructor
    · intro x hx hxk
      rcases List.mem_append.mp hx with h | h
      · exact h1 x h hxk
      · rw [List.mem_singleton.mp h]
        exact hR1
    · obtain ⟨x, hx, hxt⟩ := h2
      exact ⟨x, by rw [List.find?_append, hx]; rfl, hxt⟩

end Tracking

/-! ## `ExtractCandles`: what a summary records -/

section Summaries

variable {F T E : Type}

theorem updateNote_minPrice (rt : Runtime F T E) (note : CandleNote F T) (t : T) (hi lo : F) :
    (updateNote rt note t hi lo).minPrice =
      if rt.lt lo note.minPrice = true then lo else note.minPrice := by
  unfold updateNote
  by_cases h1 : rt.lt lo note.minPrice = true <;>
    by_cases h2 : rt.lt note.maxPrice hi = true <;> simp [h1, h2]

theorem updateNote_minPriceTime (rt : Runtime F T E) (note : CandleNote F T) (t : T)
    (hi lo : F) :
    (updateNote rt note t hi lo).minPriceTime =
      if rt.lt lo note.minPrice = true then t else note.minPriceTime := by
  unfold updateNote
  by_cases h1 : rt.lt lo note.minPrice = true <;>
    by_cases h2 : rt.lt note.maxPrice hi = true <;> simp [h1, h2]

theorem updateNote_maxPrice (rt : Runtime F T E) (note : CandleNote F T) (t : T) (hi lo : F) :
    (updateNote rt note t hi lo).maxPrice =
      if rt.lt note.maxPrice hi = true then hi else note.maxPrice := by
  unfold updateNote
  by_cases h1 : rt.lt lo note.minPrice = true <;>
    by_cases h2 : rt.lt note.maxPrice hi = true <;> simp [h1, h2]

theorem updateNote_maxPriceTime (rt : Runtime F T E) (note : CandleNote F T) (t : T)
    (hi lo : F) :
    (updateNote rt note t hi lo).maxPriceTime =
      if rt.lt note.maxPrice hi = true then t else note.maxPriceTime := by
  unfold updateNote
  by_cases h1 : rt.lt lo note.minPrice = true <;>
    by_cases h2 : rt.lt note.maxPrice hi = true <;> simp [h1, h2]

theorem updateNote_income (rt : Runtime F T E) (note : CandleNote F T) (t : T) (hi lo : F) :
    (updateNote rt note t hi lo).income =
      rt.sub (updateNote rt note t hi lo).maxPrice (updateNote rt note t hi lo).minPrice := by
  unfold updateNote
  by_cases h1 : rt.lt lo note.minPrice = true <;>
    by_cases h2 : rt.lt note.maxPrice hi = true <;> simp [h1, h2]

theorem nextNote_income (rt : Runtime F T E) (old : Option (CandleNote F T)) (name : String)
    (t : T) (hi lo : F) :
    (nextNote rt old name t hi lo).income =
      rt.sub (nextNote rt old name t hi lo).maxPrice (nextNote rt old name t hi lo).minPrice := by
  cases old with
  | none => rfl
  | some note => exact updateNote_income rt note t hi lo

variable [DecidableEq F]

theorem KeyInv_step (rt : Runtime F T E) (hord : StrictOrder rt) (k : String)
    (seen : List (List String)) (old : Option (CandleNote F T)) (hinv : KeyInv rt k seen old)
    (r : List String) (t : T) (ht : candleTime rt r = some t) :
    KeyInv rt k (seen ++ [r]) (summaryStep rt k old r) := by
  by_cases hk : candleName r = k
  · simp only [summaryStep, hk, if_true, ht]
    cases old with
    | none =>
      have hnew : ∀ x ∈ seen, candleName x ≠ k := hinv
      have hlo := track_fresh rt rt.lt hord.1 (candleLow rt) k seen hnew r hk t ht
      have hhi := track_fresh rt (fun a b => rt.lt b a) (fun a => hord.1 a)
        (candleHigh rt) k seen hnew r hk t ht
      exact ⟨hlo.1, hlo.2, hhi.1, hhi.2⟩
    | some note =>
      obtain ⟨a1, a2, a3, a4⟩ := hinv
      have hlo := track_step rt rt.lt hord.1 hord.2 (candleLow rt) k seen
        note.minPrice note.minPriceTime a1 a2 r hk t ht
      have hhi := track_step rt (fun a b => rt.lt b a) (fun a => hord.1 a)
        (fun a b c hab hbc => hord.2 c b a hbc hab) (candleHigh rt) k seen
        note.maxPrice note.maxPriceTime a3 a4 r hk t ht
      simp only [KeyInv, Summarises, firstLow, firstHigh, nextNote, updateNote_minPrice,
        updateNote_minPriceTime, updateNote_maxPrice, updateNote_maxPriceTime]
      exact ⟨hlo.1, hlo.2, hhi.1, hhi.2⟩
  · simp only [summaryStep, hk, if_false]
    cases old with
    | none =>
      intro x hx
      rcases List.mem_append.mp hx with h | h
      · exact hinv x h
      · rw [List.mem_singleton.mp h]
        exact hk
    | some note =>
      obtain ⟨a1, a2, a3, a4⟩ := hinv
      have hlo := track_skip rt rt.lt (candleLow rt) k seen
        note.minPrice note.minPriceTime a1 a2 r hk
      have hhi := track_skip rt (fun a b => rt.lt b a) (candleHigh rt) k seen
        note.maxPrice note.maxPriceTime a3 a4 r hk
      exact ⟨hlo.1, hlo.2, hhi.1, hhi.2⟩

theorem KeyInv_foldl (rt : Runtime F T E) (hord : StrictOrder rt) (k : String)
    (rows : List (List String)) :
    ∀ (seen : List (List String)) (old : Option (CandleNote F T)),
      TimesOK rt rows → KeyInv rt k seen old →
        KeyInv rt k (seen ++ rows) (rows.foldl (summaryStep rt k) old) := by
  induction rows with
  | nil =>
    intro seen old _ hinv
    simpa using hinv
  | cons r rest ih =>
    intro seen old htime hinv
    obtain ⟨t, ht⟩ := htime r (List.mem_cons_self _ _)
    have h1 := KeyInv_step rt hord k seen old hinv r t ht
    have h2 := ih (seen ++ [r]) (summaryStep rt k old r)
      (fun x hx => htime x (List.mem_cons_of_mem _ hx)) h1
    simpa [List.append_assoc] using h2

theorem ExtractCandles_KeyInv (rt : Runtime F T E) (hord : StrictOrder rt)
    (candles : List (List String)) (hrows : RowsOK candles) (htimes : TimesOK rt candles) :
    ∃ m, ExtractCandles rt candles = .ok m ∧ ∀ k, KeyInv rt k candles (m.find k) := by
  obtain ⟨m, hm, hfind⟩ := candleLoop_find rt candles [] hrows htimes
  refine ⟨m, hm, fun k => ?_⟩
  rw [hfind k]
  have h := KeyInv_foldl rt hord k candles [] (GoMap.find [] k) htimes
    (by simp [GoMap.find, KeyInv])
  simpa using h

end Summaries

/-! ## The concrete runtime is a strict order -/

theorem intRuntime_strictOrder : StrictOrder intRuntime := by
  constructor
  · intro a
    simp [intRuntime]
  · intro a b c hab hbc
    simp only [intRuntime, decide_eq_true_eq] at hab hbc ⊢
    omega

theorem sampleCandles_rowsOK : RowsOK sampleCandles := by
  intro r hr
  simp only [sampleCandles, List.mem_cons, List.mem_singleton, List.not_mem_nil, or_false] at hr
  rcases hr with h | h | h <;> subst h <;> decide

theorem sampleCandles_timesOK : TimesOK intRuntime sampleCandles := by
  intro r hr
  simp only [sampleCandles, List.mem_cons, List.mem_singleton, List.not_mem_nil, or_false] at hr
  rcases hr with h | h | h <;> subst h
  · exact ⟨1, rfl⟩
  · exact ⟨2, rfl⟩
  · exact ⟨3, rfl⟩

/-! ## Claims about `ExtractCandles` -/

section CandleClaims

variable {F T E : Type}

/-- For an instrument `k` that occurs among the rows, the `maxPrice` of its
summary is the high price of one of its rows and no high price is above it, and
the `minPrice` is the low price of one of its rows and no low price is below
it. -/
theorem ExtractCandles_unexceeded [DecidableEq F] (rt : Runtime F T E)
    (hord : StrictOrder rt) (candles : List (List String))
    (hrows : RowsOK candles) (htimes : TimesOK rt candles)
    (k : String) (hk : ∃ r ∈ candles, candleName r = k) :
    ∃ m note, ExtractCandles rt candles = .ok m ∧ m.find k = some note ∧
      (∃ r ∈ candles, candleName r = k ∧ candleHigh rt r = note.maxPrice) ∧
      (∀ r ∈ candles, candleName r = k → rt.lt note.maxPrice (candleHigh rt r) = false) ∧
      (∃ r ∈ candles, candleName r = k ∧ candleLow rt r = note.minPrice) ∧
      (∀ r ∈ candles, candleName r = k → rt.lt (candleLow rt r) note.minPrice = false) := by
  obtain ⟨m, hm, hinv⟩ := ExtractCandles_KeyInv rt hord candles hrows htimes
  have hkinv := hinv k
  cases hf : m.find k with
  | none =>
    rw [hf] at hkinv
    obtain ⟨r, hr, hrk⟩ := hk
    exact absurd hrk (hkinv r hr)
  | some note =>
    rw [hf] at hkinv
    obtain ⟨a1, ⟨r1, hr1, _⟩, a3, ⟨r2, hr2, _⟩⟩ := hkinv
    refine ⟨m, note, hm, hf, ?_, a3, ?_, a1⟩
    · have hp := List.find?_some hr2
      simp only [decide_eq_true_eq] at hp
      exact ⟨r2, List.mem_of_find?_eq_some hr2, hp.1, hp.2⟩
    · have hp := List.find?_some hr1
      simp only [decide_eq_true_eq] at hp
      exact ⟨r1, List.mem_of_find?_eq_some hr1, hp.1, hp.2⟩

end CandleClaims

/-! ## `ExtractCandles`: income and errors -/

section CandleLoop

variable {F T E : Type}

theorem candleLoop_income (rt : Runtime F T E) (rows : List (List String)) :
    ∀ m : GoMap (CandleNote F T),
      (∀ entry ∈ m, entry.2.income = rt.sub entry.2.maxPrice entry.2.minPrice) →
      RowsOK rows → TimesOK rt rows →
      ∃ m1, candleLoop rt m rows = .ok m1 ∧
        ∀ entry ∈ m1, entry.2.income = rt.sub entry.2.maxPrice entry.2.minPrice := by
  induction rows with
  | nil =>
    intro m hm _ _
    exact ⟨m, rfl, hm⟩
  | cons r rest ih =>
    intro m hm hlen htime
    obtain ⟨t, ht⟩ := htime r (List.mem_cons_self _ _)
    have hstep := candleStep_ok rt m r t (hlen r (List.mem_cons_self _ _)) ht
    obtain ⟨m1, hm1, hall⟩ := ih
      (m.store (candleName r) (nextNote rt (m.find (candleName r)) (candleName r) t
        (candleHigh rt r) (candleLow rt r)))
      (by
        intro entry hentry
        rcases GoMap.mem_store hentry with h | h
        · exact hm entry h
        · rw [h]
          exact nextNote_income rt _ _ _ _ _)
      (fun x hx => hlen x (List.mem_cons_of_mem _ hx))
      (fun x hx => htime x (List.mem_cons_of_mem _ hx))
    refine ⟨m1, ?_, hall⟩
    simp only [candleLoop, hstep]
    exact hm1

theorem candleStep_badTime (rt : Runtime F T E) (m : GoMap (CandleNote F T))
    (r : List String) (e : E) (hlen : 5 ≤ r.length)
    (he : rt.parseTime (field r 1) = .error e) :
    candleStep rt m r = .error (.returned e) := by
  match r, hlen with
  | c0 :: c1 :: c2 :: c3 :: c4 :: rest, _ =>
    have hp : rt.parseTime c1 = .error e := by
      simpa [field] using he
    simp [candleStep, hp]

theorem candleLoop_badTime (rt : Runtime F T E) (r : List String) (post : List (List String))
    (e : E) (hlen : 5 ≤ r.length) (he : rt.parseTime (field r 1) = .error e)
    (pre : List (List String)) :
    ∀ m : GoMap (CandleNote F T), RowsOK pre → TimesOK rt pre →
      candleLoop rt m (pre ++ r :: post) = .error (.returned e) := by
  induction pre with
  | nil =>
    intro m _ _
    simp [candleLoop, candleStep_badTime rt m r e hlen he]
  | cons x rest ih =>
    intro m hrows htime
    obtain ⟨t, ht⟩ := htime x (List.mem_cons_self _ _)
    have hstep := candleStep_ok rt m x t (hrows x (List.mem_cons_self _ _)) ht
    simp only [List.cons_append, candleLoop, hstep]
    exact ih _ (fun y hy => hrows y (List.mem_cons_of_mem _ hy))
      (fun y hy => htime y (List.mem_cons_of_mem _ hy))

theorem candleTime_eq_none (rt : Runtime F T E) (r : List String)
    (h : candleTime rt r = none) : ∃ e, rt.parseTime (field r 1) = .error e := by
  unfold candleTime at h
  cases hp : rt.parseTime (field r 1) with
  | error e => exact ⟨e, rfl⟩
  | ok t => simp [hp] at h

theorem ExtractCandles_firstBadTime (rt : Runtime F T E) (candles : List (List String))
    (hrows : RowsOK candles) (r : List String) (hr : firstBadTime rt candles = some r) :
    ∃ e, rt.parseTime (field r 1) = .error e ∧
      ExtractCandles rt candles = .error (.returned e) := by
  obtain ⟨hbad, pre, post, hsplit, hpre⟩ := List.find?_eq_some.mp hr
  have hnone : candleTime rt r = none := by
    simpa using hbad
  obtain ⟨e, he⟩ := candleTime_eq_none rt r hnone
  refine ⟨e, he, ?_⟩
  have hmem : r ∈ candles := by
    rw [hsplit]
    simp
  have hpre_rows : RowsOK pre := by
    intro x hx
    apply hrows
    rw [hsplit]
    exact List.mem_append_left _ hx
  have hpre_times : TimesOK rt pre := by
    intro x hx
    have h := hpre x hx
    cases hc : candleTime rt x with
    | none => simp [hc] at h
    | some t => exact ⟨t, rfl⟩
  unfold ExtractCandles
  rw [hsplit]
  exact candleLoop_badTime rt r post e (hrows r hmem) he pre [] hpre_rows hpre_times

theorem timesOK_of_firstBadTime (rt : Runtime F T E) (candles : List (List String))
    (h : firstBadTime rt candles = none) : TimesOK rt candles := by
  intro r hr
  have hall := List.find?_eq_none.mp h r hr
  cases hc : candleTime rt r with
  | none => simp [hc] at hall
  | some t => exact ⟨t, rfl⟩

end CandleLoop

theorem brokenCandles_rowsOK : RowsOK brokenCandles := by
  intro r hr
  simp only [brokenCandles, List.mem_cons, List.mem_singleton, List.not_mem_nil, or_false] at hr
  rcases hr with h | h | h <;> subst h <;> decide

section CandleClaims2

variable {F T E : Type}

/-- C2: for candle rows with their five fields whose timestamps all parse,
`ExtractCandles` returns a map, and every summary in it satisfies
`income = maxPrice - minPrice`, whether it was written once or updated. -/
theorem ExtractCandles_income (rt : Runtime F T E) (candles : List (List String))
    (hrows : RowsOK candles) (htimes : TimesOK rt candles) :
    ∃ m, ExtractCandles rt candles = .ok m ∧
      ∀ entry ∈ m, entry.2.income = rt.sub entry.2.maxPrice entry.2.minPrice :=
  candleLoop_income rt candles [] (by simp) hrows htimes

/-- Witness of C2 on `sampleCandles`. -/
theorem ExtractCandles_income_witness :
    RowsOK sampleCandles ∧ TimesOK intRuntime sampleCandles ∧
    ∃ m, ExtractCandles intRuntime sampleCandles = .ok m ∧
      ∀ entry ∈ m, entry.2.income = intRuntime.sub entry.2.maxPrice entry.2.minPrice :=
  ⟨sampleCandles_rowsOK, sampleCandles_timesOK,
    ExtractCandles_income intRuntime sampleCandles sampleCandles_rowsOK sampleCandles_timesOK⟩

/-- C3: for candle rows with their five fields whose timestamps all parse, and
an instrument `k` that occurs among them, the `minPriceTime` of the summary of
`k` is the timestamp of the first row of `k`, in input order, whose low price
equals the final `minPrice`, and `maxPriceTime` is the timestamp of the first
row of `k` whose high price equals the final `maxPrice`. -/
theorem ExtractCandles_extreme_times [DecidableEq F] (rt : Runtime F T E)
    (hord : StrictOrder rt) (candles : List (List String))
    (hrows : RowsOK candles) (htimes : TimesOK rt candles)
    (k : String) (hk : ∃ r ∈ candles, candleName r = k) :
    ∃ m note, ExtractCandles rt candles = .ok m ∧ m.find k = some note ∧
      (∃ r, firstLow rt k note.minPrice candles = some r ∧
        candleTime rt r = some note.minPriceTime) ∧
      (∃ r, firstHigh rt k note.maxPrice candles = some r ∧
        candleTime rt r = some note.maxPriceTime) := by
  obtain ⟨m, hm, hinv⟩ := ExtractCandles_KeyInv rt hord candles hrows htimes
  have hkinv := hinv k
  cases hf : m.find k with
  | none =>
    rw [hf] at hkinv
    obtain ⟨r, hr, hrk⟩ := hk
    exact absurd hrk (hkinv r hr)
  | some note =>
    rw [hf] at hkinv
    exact ⟨m, note, hm, hf, hkinv.2.1, hkinv.2.2.2⟩

/-- Witness of C3 on `sampleCandles` and the instrument `BTC`. -/
theorem ExtractCandles_extreme_times_witness :
    StrictOrder intRuntime ∧ RowsOK sampleCandles ∧ TimesOK intRuntime sampleCandles ∧
    (∃ r ∈ sampleCandles, candleName r = "BTC") ∧
    ∃ m note, ExtractCandles intRuntime sampleCandles = .ok m ∧ m.find "BTC" = some note ∧
      (∃ r, firstLow intRuntime "BTC" note.minPrice sampleCandles = some r ∧
        candleTime intRuntime r = some note.minPriceTime) ∧
      (∃ r, firstHigh intRuntime "BTC" note.maxPrice sampleCandles = some r ∧
        candleTime intRuntime r = some note.maxPriceTime) :=
  ⟨intRuntime_strictOrder, sampleCandles_rowsOK, sampleCandles_timesOK,
    ⟨_, List.mem_cons_self _ _, rfl⟩,
    ExtractCandles_extreme_times intRuntime intRuntime_strictOrder sampleCandles
      sampleCandles_rowsOK sampleCandles_timesOK "BTC" ⟨_, List.mem_cons_self _ _, rfl⟩⟩

/-- C4: on candle rows with their five fields, `ExtractCandles` returns an
error, and no map, exactly when the timestamp of some row does not parse; the
error is then the one of the first such row in input order; and when every
timestamp parses it returns a map and no error. -/
theorem ExtractCandles_error_iff (rt : Runtime F T E) (candles : List (List String))
    (hrows : RowsOK candles) :
    ((∃ e, ExtractCandles rt candles = .error (.returned e)) ↔
      ∃ r ∈ candles, candleTime rt r = none) ∧
    (∀ r, firstBadTime rt candles = some r →
      ∃ e, rt.parseTime (field r 1) = .error e ∧
        ExtractCandles rt candles = .error (.returned e)) ∧
    (TimesOK rt candles → ∃ m, ExtractCandles rt candles = .ok m) := by
  have hok : TimesOK rt candles → ∃ m, ExtractCandles rt candles = .ok m := by
    intro htimes
    obtain ⟨m, hm, _⟩ := candleLoop_find rt candles [] hrows htimes
    exact ⟨m, hm⟩
  refine ⟨?_, fun r hr => ExtractCandles_firstBadTime rt candles hrows r hr, hok⟩
  cases hb : firstBadTime rt candles with
  | none =>
    have htimes := timesOK_of_firstBadTime rt candles hb
    obtain ⟨m, hm⟩ := hok htimes
    constructor
    · rintro ⟨e, he⟩
      rw [hm] at he
      cases he
    · rintro ⟨r, hr, hnone⟩
      obtain ⟨t, ht⟩ := htimes r hr
      rw [hnone] at ht
      cases ht
  | some r =>
    obtain ⟨e, _, he⟩ := ExtractCandles_firstBadTime rt candles hrows r hb
    constructor
    · intro _
      refine ⟨r, List.mem_of_find?_eq_some hb, ?_⟩
      have := List.find?_some hb
      simpa using this
    · intro _
      exact ⟨e, he⟩

/-- Witness of C4 on `brokenCandles`, whose second and third timestamps do not
parse. -/
theorem ExtractCandles_error_iff_witness :
    RowsOK brokenCandles ∧
    ((∃ e, ExtractCandles intRuntime brokenCandles = .error (.returned e)) ↔
      ∃ r ∈ brokenCandles, candleTime intRuntime r = none) ∧
    (∀ r, firstBadTime intRuntime brokenCandles = some r →
      ∃ e, intRuntime.parseTime (field r 1) = .error e ∧
        ExtractCandles intRuntime brokenCandles = .error (.returned e)) ∧
    (TimesOK intRuntime brokenCandles → ∃ m, ExtractCandles intRuntime brokenCandles = .ok m) :=
  ⟨brokenCandles_rowsOK, ExtractCandles_error_iff intRuntime brokenCandles brokenCandles_rowsOK⟩

end CandleClaims2

/-! ## `ExtractUsersTrans`: the loop, pair by pair -/

section Users

variable {F T E : Type}

theorem usersStep_ok (rt : Runtime F T E) (m : GoMap (UserNote F)) (r : List String)
    (hlen : 5 ≤ r.length) :
    usersStep rt m r =
      some (m.store (tradeUser r) (nextUser rt (m.find (tradeUser r)) r)) := by
  match r, hlen with
  | c0 :: c1 :: c2 :: c3 :: c4 :: rest, _ =>
    cases hf : m.find c0 with
    | none =>
      simp [usersStep, hf, nextUser, tradeUser, tradeTicker, tradeBuy, field]
    | some note =>
      cases hg : note.tickers.find c2 <;>
        simp [usersStep, hf, hg, nextUser, nextTicker, saleUpdate, tradeUser, tradeTicker,
          tradeBuy, tradeSale, field]

theorem tickerOf_store_nextUser (rt : Runtime F T E) (m : GoMap (UserNote F))
    (r : List String) (u i : String) :
    tickerOf (m.store (tradeUser r) (nextUser rt (m.find (tradeUser r)) r)) u i =
      tickerStep rt u i (tickerOf m u i) r := by
  by_cases hu : tradeUser r = u
  · subst hu
    by_cases hi : tradeTicker r = i
    · subst hi
      cases hf : m.find (tradeUser r) with
      | none =>
        simp [tickerOf, tickerStep, tradeOf, GoMap.find_store_self, hf, nextUser, nextTicker,
          GoMap.find]
      | some note =>
        simp [tickerOf, tickerStep, tradeOf, GoMap.find_store_self, hf, nextUser]
    · cases hf : m.find (tradeUser r) with
      | none =>
        simp [tickerOf, tickerStep, tradeOf, GoMap.find_store_self, hf, nextUser, hi,
          GoMap.find]
      | some note =>
        simp [tickerOf, tickerStep, tradeOf, GoMap.find_store_self, hf, nextUser, hi,
          GoMap.find_store_of_ne]
  · simp [tickerOf, tickerStep, tradeOf, hu, GoMap.find_store_of_ne]

theorem usersLoop_tickerOf (rt : Runtime F T E) (rows : List (List String)) :
    ∀ m : GoMap (UserNote F), RowsOK rows →
      ∃ m1, usersLoop rt m rows = some m1 ∧
        ∀ u i, tickerOf m1 u i = rows.foldl (tickerStep rt u i) (tickerOf m u i) := by
  induction rows with
  | nil =>
    intro m _
    exact ⟨m, rfl, fun u i => rfl⟩
  | cons r rest ih =>
    intro m hlen
    have hstep := usersStep_ok rt m r (hlen r (List.mem_cons_self _ _))
    obtain ⟨m1, hm1, hfind⟩ := ih
      (m.store (tradeUser r) (nextUser rt (m.find (tradeUser r)) r))
      (fun x hx => hlen x (List.mem_cons_of_mem _ hx))
    refine ⟨m1, ?_, ?_⟩
    · simp only [usersLoop, hstep]
      exact hm1
    · intro u i
      rw [hfind u i, List.foldl_cons, tickerOf_store_nextUser]

theorem foldl_tickerStep_filter (rt : Runtime F T E) (u i : String)
    (rows : List (List String)) :
    ∀ old : Option (GoMap F),
      rows.foldl (tickerStep rt u i) old =
        (rows.filter (tradeOf u i)).foldl (fun o r => some (nextTicker rt o r)) old := by
  induction rows with
  | nil => intro old; rfl
  | cons r rest ih =>
    intro old
    by_cases h : tradeOf u i r = true
    · simp [List.filter_cons, h, tickerStep, ih]
    · simp [List.filter_cons, h, tickerStep, ih]

theorem ExtractUsersTrans_tickerOf (rt : Runtime F T E) (users : List (List String))
    (hrows : RowsOK users) :
    ∃ m, ExtractUsersTrans rt users = some m ∧
      ∀ u i, tickerOf m u i =
        (users.filter (tradeOf u i)).foldl (fun o r => some (nextTicker rt o r)) none := by
  obtain ⟨m, hm, hfind⟩ := usersLoop_tickerOf rt users [] hrows
  refine ⟨m, hm, fun u i => ?_⟩
  rw [hfind u i, foldl_tickerStep_filter]
  rfl

theorem tickerOf_eq_some {m : GoMap (UserNote F)} {u i : String} {ticker : GoMap F}
    (h : tickerOf m u i = some ticker) :
    ∃ note, m.find u = some note ∧ note.tickers.find i = some ticker := by
  unfold tickerOf at h
  cases hf : m.find u with
  | none => simp [hf] at h
  | some note =>
    simp only [hf] at h
    exact ⟨note, rfl, h⟩

end Users

/-! ## Claims about `ExtractUsersTrans` -/

section UserClaims

variable {F T E : Type}

theorem saleUpdate_find_buyPrice (rt : Runtime F T E) (ticker : GoMap F) (s : F) :
    (saleUpdate rt ticker s).find "buyPrice" = ticker.find "buyPrice" := by
  unfold saleUpdate
  rw [GoMap.find_store_of_ne _ _ (by decide), GoMap.find_store_of_ne _ _ (by decide)]

theorem saleUpdate_find_income (rt : Runtime F T E) (ticker : GoMap F) (s : F) :
    (saleUpdate rt ticker s).find "income" =
      some (rt.sub s (ticker.findD "buyPrice" rt.zero)) := by
  unfold saleUpdate
  rw [GoMap.find_store_self]
  simp only [GoMap.findD, GoMap.find_store_self, Option.getD_some]
  rw [GoMap.find_store_of_ne _ _ (by decide)]

theorem foldl_nextTicker_buyPrice (rt : Runtime F T E) (b : F) (rest : List (List String)) :
    ∀ ticker : GoMap F, ticker.find "buyPrice" = some b →
      ∃ ticker1, rest.foldl (fun o r => some (nextTicker rt o r)) (some ticker) = some ticker1 ∧
        ticker1.find "buyPrice" = some b := by
  induction rest with
  | nil =>
    intro ticker h
    exact ⟨ticker, rfl, h⟩
  | cons r rest ih =>
    intro ticker h
    simp only [List.foldl_cons, nextTicker]
    exact ih _ (by rw [saleUpdate_find_buyPrice]; exact h)

theorem filter_of_find? {α : Type} (p : α → Bool) (l : List α) (a : α)
    (h : l.find? p = some a) : ∃ rest, l.filter p = a :: rest := by
  obtain ⟨hp, pre, post, hsplit, hpre⟩ := List.find?_eq_some.mp h
  refine ⟨post.filter p, ?_⟩
  have hnil : pre.filter p = [] := by
    rw [List.filter_eq_nil_iff]
    intro x hx
    simpa using hpre x hx
  rw [hsplit, List.filter_append, hnil, List.filter_cons, hp]
  simp

/-- C5: when the pair `(u, i)` occurs in exactly two trade rows, `r1` followed
by `r2`, whatever rows of other pairs are interleaved, the ticker entry that
`ExtractUsersTrans` returns for the pair has `income` equal to the sale price
of `r2` minus the buy price of `r1`. -/
theorem ExtractUsersTrans_income (rt : Runtime F T E) (users : List (List String))
    (hrows : RowsOK users) (u i : String) (r1 r2 : List String)
    (hpair : users.filter (tradeOf u i) = [r1, r2]) :
    ∃ m note ticker, ExtractUsersTrans rt users = some m ∧ m.find u = some note ∧
      note.tickers.find i = some ticker ∧
      ticker.find "income" = some (rt.sub (tradeSale rt r2) (tradeBuy rt r1)) := by
  obtain ⟨m, hm, hfind⟩ := ExtractUsersTrans_tickerOf rt users hrows
  have h := hfind u i
  rw [hpair] at h
  simp only [List.foldl_cons, List.foldl_nil, nextTicker] at h
  obtain ⟨note, hnote, hticker⟩ := tickerOf_eq_some h
  refine ⟨m, note, _, hm, hnote, hticker, ?_⟩
  rw [saleUpdate_find_income]
  simp [GoMap.findD, GoMap.find]

/-- C6: the `buyPrice` that `ExtractUsersTrans` stores for a pair `(u, i)` is
the buy-price field of the first row of the pair in input order, however many
rows of the pair follow it. -/
theorem ExtractUsersTrans_buyPrice (rt : Runtime F T E) (users : List (List String))
    (hrows : RowsOK users) (u i : String) (r1 : List String)
    (hfirst : users.find? (tradeOf u i) = some r1) :
    ∃ m note ticker, ExtractUsersTrans rt users = some m ∧ m.find u = some note ∧
      note.tickers.find i = some ticker ∧
      ticker.find "buyPrice" = some (tradeBuy rt r1) := by
  obtain ⟨m, hm, hfind⟩ := ExtractUsersTrans_tickerOf rt users hrows
  obtain ⟨rest, hrest⟩ := filter_of_find? (tradeOf u i) users r1 hfirst
  have h := hfind u i
  rw [hrest, List.foldl_cons] at h
  obtain ⟨ticker, hfold, hbuy⟩ := foldl_nextTicker_buyPrice rt (tradeBuy rt r1) rest
    (nextTicker rt none r1) (by simp [nextTicker, GoMap.find])
  rw [hfold] at h
  obtain ⟨note, hnote, hticker⟩ := tickerOf_eq_some h
  exact ⟨m, note, ticker, hm, hnote, hticker, hbuy⟩

end UserClaims

theorem sampleTrades_rowsOK : RowsOK sampleTrades := by
  intro r hr
  simp only [sampleTrades, List.mem_cons, List.mem_singleton, List.not_mem_nil, or_false] at hr
  rcases hr with h | h | h | h | h <;> subst h <;> decide

/-- Witness of C5 on `sampleTrades` and the pair `(ann, BTC)`, whose buy row and
sale row are separated by rows of other pairs. -/
theorem ExtractUsersTrans_income_witness :
    RowsOK sampleTrades ∧
    sampleTrades.filter (tradeOf "ann" "BTC") =
      [["ann", "1", "BTC", "95", "0", "x"], ["ann", "4", "BTC", "0", "110", "x"]] ∧
    ∃ m note ticker, ExtractUsersTrans intRuntime sampleTrades = some m ∧
      m.find "ann" = some note ∧ note.tickers.find "BTC" = some ticker ∧
      ticker.find "income" =
        some (intRuntime.sub (tradeSale intRuntime ["ann", "4", "BTC", "0", "110", "x"])
          (tradeBuy intRuntime ["ann", "1", "BTC", "95", "0", "x"])) :=
  ⟨sampleTrades_rowsOK, by decide,
    ExtractUsersTrans_income intRuntime sampleTrades sampleTrades_rowsOK "ann" "BTC"
      ["ann", "1", "BTC", "95", "0", "x"] ["ann", "4", "BTC", "0", "110", "x"] (by decide)⟩

/-- Witness of C6 on `sampleTrades` and the pair `(ann, BTC)`. -/
theorem ExtractUsersTrans_buyPrice_witness :
    RowsOK sampleTrades ∧
    sampleTrades.find? (tradeOf "ann" "BTC") = some ["ann", "1", "BTC", "95", "0", "x"] ∧
    ∃ m note ticker, ExtractUsersTrans intRuntime sampleTrades = some m ∧
      m.find "ann" = some note ∧ note.tickers.find "BTC" = some ticker ∧
      ticker.find "buyPrice" = some (tradeBuy intRuntime ["ann", "1", "BTC", "95", "0", "x"]) :=
  ⟨sampleTrades_rowsOK, by decide,
    ExtractUsersTrans_buyPrice intRuntime sampleTrades sampleTrades_rowsOK "ann" "BTC"
      ["ann", "1", "BTC", "95", "0", "x"] (by decide)⟩

/-! ## `ExtractUsersTrans` returns well-formed maps -/

section UsersWellFormed

variable {F T E : Type}

theorem UsersWF_findD {um : GoMap (UserNote F)} (hwf : UsersWF um) (u : String) :
    GoMap.WF (um.findD u UserNote.zeroValue).tickers := by
  unfold GoMap.findD
  cases hf : um.find u with
  | none => simp [UserNote.zeroValue, GoMap.WF, GoMap.keys]
  | some note => exact hwf.2 _ (GoMap.mem_of_find hf)

theorem UsersWF_store_nextUser (rt : Runtime F T E) {m : GoMap (UserNote F)}
    (hwf : UsersWF m) (r : List String) :
    UsersWF (m.store (tradeUser r) (nextUser rt (m.find (tradeUser r)) r)) := by
  refine ⟨GoMap.WF_store hwf.1 _ _, ?_⟩
  intro entry hentry
  rcases GoMap.mem_store hentry with h | h
  · exact hwf.2 entry h
  · rw [h]
    cases hf : m.find (tradeUser r) with
    | none => simp [nextUser, GoMap.WF, GoMap.keys]
    | some note =>
      exact GoMap.WF_store (hwf.2 _ (GoMap.mem_of_find hf)) _ _

theorem usersLoop_WF (rt : Runtime F T E) (rows : List (List String)) :
    ∀ m : GoMap (UserNote F), UsersWF m → RowsOK rows →
      ∀ m1, usersLoop rt m rows = some m1 → UsersWF m1 := by
  induction rows with
  | nil =>
    intro m hwf _ m1 h
    simp only [usersLoop, Option.some.injEq] at h
    exact h ▸ hwf
  | cons r rest ih =>
    intro m hwf hlen m1 h
    have hstep := usersStep_ok rt m r (hlen r (List.mem_cons_self _ _))
    simp only [usersLoop, hstep] at h
    exact ih _ (UsersWF_store_nextUser rt hwf r)
      (fun x hx => hlen x (List.mem_cons_of_mem _ hx)) m1 h

theorem ExtractUsersTrans_WF (rt : Runtime F T E) (users : List (List String))
    (hrows : RowsOK users) (m : GoMap (UserNote F))
    (h : ExtractUsersTrans rt users = some m) : UsersWF m :=
  usersLoop_WF rt users [] ⟨by simp [GoMap.WF, GoMap.keys], by simp⟩ hrows m h

end UsersWellFormed

/-! ## `FormatData`: the rows and their pairs -/

section Format

variable {F T E : Type}

theorem mem_FormatData (rt : Runtime F T E) (cm : GoMap (CandleNote F T))
    (um : GoMap (UserNote F)) (row : List String) :
    row ∈ FormatData rt cm um ↔
      ∃ u ∈ GoMap.keys um, ∃ entry ∈ (um.findD u UserNote.zeroValue).tickers,
        row = formatLine rt cm u entry.1 entry.2 := by
  unfold FormatData
  simp only [List.mem_flatMap, List.mem_map]
  constructor
  · rintro ⟨u, hu, entry, hentry, rfl⟩
    exact ⟨u, hu, entry, hentry, rfl⟩
  · rintro ⟨u, hu, entry, hentry, rfl⟩
    exact ⟨u, hu, entry, hentry, rfl⟩

theorem mem_keys_iff_find {V : Type} (m : GoMap V) (k : String) :
    k ∈ GoMap.keys m ↔ ∃ v, m.find k = some v := by
  constructor
  · intro h
    cases hf : m.find k with
    | none => exact absurd h ((GoMap.find_eq_none_iff m k).mp hf)
    | some v => exact ⟨v, rfl⟩
  · rintro ⟨v, hv⟩
    exact List.mem_map.mpr ⟨(k, v), GoMap.mem_of_find hv, rfl⟩

theorem FormatData_map_rowPair (rt : Runtime F T E) (cm : GoMap (CandleNote F T))
    (um : GoMap (UserNote F)) :
    (FormatData rt cm um).map rowPair =
      (GoMap.keys um).flatMap fun u =>
        (GoMap.keys (um.findD u UserNote.zeroValue).tickers).map fun i => (u, i) := by
  unfold FormatData
  rw [List.map_flatMap]
  congr 1
  funext u
  simp only [GoMap.keys, List.map_map]
  rfl

theorem rowPairs_nodup {um : GoMap (UserNote F)} (hwf : UsersWF um) :
    ((GoMap.keys um).flatMap fun u =>
      (GoMap.keys (um.findD u UserNote.zeroValue).tickers).map fun i => (u, i)).Nodup := by
  rw [List.nodup_flatMap]
  constructor
  · intro u _
    exact List.Nodup.map (fun a b hab => (Prod.mk.injEq _ _ _ _ ▸ hab : _ ∧ _).2)
      (UsersWF_findD hwf u)
  · have hne : List.Pairwise (fun a b => a ≠ b) (GoMap.keys um) := hwf.1
    refine hne.imp ?_
    intro a b hab p hpa hpb
    simp only [List.mem_map] at hpa hpb
    obtain ⟨i, _, rfl⟩ := hpa
    obtain ⟨j, _, hj⟩ := hpb
    exact hab (Prod.mk.inj hj).1.symm

end Format

/-! ## The sample maps -/

theorem sampleNotes_eq : ExtractCandles intRuntime sampleCandles = .ok sampleNotes := by
  rfl

theorem sampleUsers_eq : ExtractUsersTrans intRuntime sampleTrades = some sampleUsers := by
  decide

theorem sampleUsers_WF : UsersWF sampleUsers :=
  ExtractUsersTrans_WF intRuntime sampleTrades sampleTrades_rowsOK sampleUsers sampleUsers_eq

/-! ## Claims about `FormatData` -/

section FormatClaims

variable {F T E : Type}

/-- C7: for every candle map and every user map, `FormatData` emits exactly one
row for each `(user, instrument)` pair of the user map and no other row: the
`(userId, instrument)` fields of the rows are pairwise distinct, and a pair
heads a row exactly when the user map has a ticker for it, whether or not the
instrument occurs in the candle map. -/
theorem FormatData_pairs (rt : Runtime F T E) (cm : GoMap (CandleNote F T))
    (um : GoMap (UserNote F)) (hwf : UsersWF um) :
    ((FormatData rt cm um).map rowPair).Nodup ∧
    ∀ u i, (u, i) ∈ (FormatData rt cm um).map rowPair ↔
      ∃ note ticker, um.find u = some note ∧ note.tickers.find i = some ticker := by
  rw [FormatData_map_rowPair]
  refine ⟨rowPairs_nodup hwf, fun u i => ?_⟩
  simp only [List.mem_flatMap, List.mem_map, Prod.mk.injEq]
  constructor
  · rintro ⟨u1, hu1, i1, hi1, rfl, rfl⟩
    obtain ⟨note, hnote⟩ := (mem_keys_iff_find um u1).mp hu1
    have hD : um.findD u1 UserNote.zeroValue = note := by
      simp [GoMap.findD, hnote]
    rw [hD] at hi1
    obtain ⟨ticker, hticker⟩ := (mem_keys_iff_find note.tickers i1).mp hi1
    exact ⟨note, ticker, hnote, hticker⟩
  · rintro ⟨note, ticker, hnote, hticker⟩
    have hD : um.findD u UserNote.zeroValue = note := by
      simp [GoMap.findD, hnote]
    refine ⟨u, (mem_keys_iff_find um u).mpr ⟨note, hnote⟩, i, ?_, rfl, rfl⟩
    rw [hD]
    exact (mem_keys_iff_find note.tickers i).mpr ⟨ticker, hticker⟩

/-- Witness of C7 on the sample maps. -/
theorem FormatData_pairs_witness :
    UsersWF sampleUsers ∧
    ((FormatData intRuntime sampleNotes sampleUsers).map rowPair).Nodup ∧
    ∀ u i, (u, i) ∈ (FormatData intRuntime sampleNotes sampleUsers).map rowPair ↔
      ∃ note ticker, sampleUsers.find u = some note ∧ note.tickers.find i = some ticker :=
  ⟨sampleUsers_WF, FormatData_pairs intRuntime sampleNotes sampleUsers sampleUsers_WF⟩

/-- C8: every row that `FormatData` emits belongs to a pair `(u, i)` of the user
map with its ticker; its `userIncome` field is the 2-decimal rendering of the
income of that ticker, its `maxIncome` field is the 2-decimal rendering of the
candle income of the instrument, and its shortfall field is the 2-decimal
rendering of the candle income minus the ticker income. -/
theorem FormatData_fields (rt : Runtime F T E) (cm : GoMap (CandleNote F T))
    (um : GoMap (UserNote F)) (row : List String) (hrow : row ∈ FormatData rt cm um) :
    ∃ u note i ticker, um.find u = some note ∧ (i, ticker) ∈ note.tickers ∧
      rowPair row = (u, i) ∧
      field row 2 = rt.sprintf2 (ticker.findD "income" rt.zero) ∧
      field row 3 = rt.sprintf2 (cm.findD i (CandleNote.zeroValue rt)).income ∧
      field row 4 = rt.sprintf2 (rt.sub (cm.findD i (CandleNote.zeroValue rt)).income
        (ticker.findD "income" rt.zero)) := by
  obtain ⟨u, hu, entry, hentry, rfl⟩ := (mem_FormatData rt cm um row).mp hrow
  obtain ⟨note, hnote⟩ := (mem_keys_iff_find um u).mp hu
  have hD : um.findD u UserNote.zeroValue = note := by
    simp [GoMap.findD, hnote]
  rw [hD] at hentry
  exact ⟨u, note, entry.1, entry.2, hnote, hentry, rfl, rfl, rfl, rfl⟩

/-- Witness of C8 on the row of the pair `(ann, BTC)` of the sample maps. -/
theorem FormatData_fields_witness :
    ["ann", "BTC", "15.00", "30.00", "15.00", "3", "1"] ∈
      FormatData intRuntime sampleNotes sampleUsers ∧
    ∃ u note i ticker, sampleUsers.find u = some note ∧ (i, ticker) ∈ note.tickers ∧
      rowPair ["ann", "BTC", "15.00", "30.00", "15.00", "3", "1"] = (u, i) ∧
      field ["ann", "BTC", "15.00", "30.00", "15.00", "3", "1"] 2 =
        intRuntime.sprintf2 (ticker.findD "income" intRuntime.zero) ∧
      field ["ann", "BTC", "15.00", "30.00", "15.00", "3", "1"] 3 =
        intRuntime.sprintf2 (sampleNotes.findD i (CandleNote.zeroValue intRuntime)).income ∧
      field ["ann", "BTC", "15.00", "30.00", "15.00", "3", "1"] 4 =
        intRuntime.sprintf2 (intRuntime.sub
          (sampleNotes.findD i (CandleNote.zeroValue intRuntime)).income
          (ticker.findD "income" intRuntime.zero)) :=
  ⟨by decide, FormatData_fields intRuntime sampleNotes sampleUsers _ (by decide)⟩

end FormatClaims

section FormatClaims2

variable {F T E : Type}

theorem formatLine_mem (rt : Runtime F T E) (cm : GoMap (CandleNote F T))
    (um : GoMap (UserNote F)) (u i : String) (note : UserNote F) (ticker : GoMap F)
    (hu : um.find u = some note) (hi : note.tickers.find i = some ticker) :
    formatLine rt cm u i ticker ∈ FormatData rt cm um := by
  rw [mem_FormatData]
  refine ⟨u, (mem_keys_iff_find um u).mpr ⟨note, hu⟩, (i, ticker), ?_, rfl⟩
  have hD : um.findD u UserNote.zeroValue = note := by
    simp [GoMap.findD, hu]
  rw [hD]
  exact GoMap.mem_of_find hi

/-- C9: for a ticker of the user map whose instrument is absent from the candle
map, `FormatData`, which has no failing outcome, still emits the row of the
pair; the `maxIncome` field of that row is `0.00` (the rendering of the zero
value) and its shortfall field is the rendering of zero minus the user income,
that is, of the negated user income. -/
theorem FormatData_missing_instrument (rt : Runtime F T E)
    (hzero : rt.sprintf2 rt.zero = "0.00")
    (cm : GoMap (CandleNote F T)) (um : GoMap (UserNote F))
    (u i : String) (note : UserNote F) (ticker : GoMap F)
    (hu : um.find u = some note) (hi : note.tickers.find i = some ticker)
    (hc : cm.find i = none) :
    ∃ row ∈ FormatData rt cm um, rowPair row = (u, i) ∧
      field row 2 = rt.sprintf2 (ticker.findD "income" rt.zero) ∧
      field row 3 = "0.00" ∧
      field row 4 = rt.sprintf2 (rt.sub rt.zero (ticker.findD "income" rt.zero)) := by
  refine ⟨formatLine rt cm u i ticker, formatLine_mem rt cm um u i note ticker hu hi,
    rfl, rfl, ?_, ?_⟩
  · simp [formatLine, field, GoMap.findD, hc, CandleNote.zeroValue, hzero]
  · simp [formatLine, field, GoMap.findD, hc, CandleNote.zeroValue]

/-- Witness of C9 on the pair `(bob, DOGE)` of the sample maps: `DOGE` has no
candle. -/
theorem FormatData_missing_instrument_witness :
    intRuntime.sprintf2 intRuntime.zero = "0.00" ∧
    sampleUsers.find "bob" = some ⟨"bob", [("BTC", [("buyPrice", 70)]),
      ("DOGE", [("buyPrice", 3)])]⟩ ∧
    GoMap.find [("BTC", [("buyPrice", (70 : Int))]), ("DOGE", [("buyPrice", 3)])] "DOGE" =
      some [("buyPrice", 3)] ∧
    sampleNotes.find "DOGE" = none ∧
    ∃ row ∈ FormatData intRuntime sampleNotes sampleUsers, rowPair row = ("bob", "DOGE") ∧
      field row 2 = intRuntime.sprintf2 (GoMap.findD [("buyPrice", 3)] "income" intRuntime.zero) ∧
      field row 3 = "0.00" ∧
      field row 4 = intRuntime.sprintf2 (intRuntime.sub intRuntime.zero
        (GoMap.findD [("buyPrice", 3)] "income" intRuntime.zero)) :=
  ⟨by decide, by decide, by decide, by decide,
    FormatData_missing_instrument intRuntime (by decide) sampleNotes sampleUsers "bob" "DOGE"
      ⟨"bob", [("BTC", [("buyPrice", 70)]), ("DOGE", [("buyPrice", 3)])]⟩ [("buyPrice", 3)]
      (by decide) (by decide) (by decide)⟩

/-- C10: when only a buy row was recorded for the pair `(u, i)` (the pair occurs
in exactly one trade row), `FormatData` on the map of `ExtractUsersTrans` emits
a row for the pair, and every row of the pair has the `userIncome` field `0.00`
(the missing income is read as zero) and a shortfall field equal to its
`maxIncome` field. -/
theorem FormatData_buy_only (rt : Runtime F T E)
    (hzero : rt.sprintf2 rt.zero = "0.00") (hsub : ∀ x, rt.sub x rt.zero = x)
    (users : List (List String)) (hrows : RowsOK users)
    (u i : String) (r : List String) (honly : users.filter (tradeOf u i) = [r])
    (cm : GoMap (CandleNote F T)) :
    ∃ um, ExtractUsersTrans rt users = some um ∧
      (∃ row ∈ FormatData rt cm um, rowPair row = (u, i)) ∧
      ∀ row ∈ FormatData rt cm um, rowPair row = (u, i) →
        field row 2 = "0.00" ∧ field row 4 = field row 3 := by
  obtain ⟨um, hum, hfind⟩ := ExtractUsersTrans_tickerOf rt users hrows
  have hwf := ExtractUsersTrans_WF rt users hrows um hum
  have h := hfind u i
  rw [honly] at h
  simp only [List.foldl_cons, List.foldl_nil, nextTicker] at h
  obtain ⟨note, hnote, hticker⟩ := tickerOf_eq_some h
  refine ⟨um, hum, ⟨_, formatLine_mem rt cm um u i note _ hnote hticker, rfl⟩, ?_⟩
  intro row hrow hpair
  obtain ⟨u1, hu1, entry, hentry, rfl⟩ := (mem_FormatData rt cm um row).mp hrow
  obtain ⟨e1, e2⟩ := entry
  have hp : u1 = u ∧ e1 = i := by
    simpa [rowPair, formatLine, field] using hpair
  obtain ⟨rfl, rfl⟩ := hp
  have hD : um.findD u1 UserNote.zeroValue = note := by
    simp [GoMap.findD, hnote]
  rw [hD] at hentry
  have he2 := GoMap.find_of_mem (hwf.2 _ (GoMap.mem_of_find hnote)) hentry
  rw [hticker] at he2
  have he3 : e2 = [("buyPrice", tradeBuy rt r)] := (Option.some.inj he2).symm
  subst he3
  constructor
  · simp [formatLine, field, GoMap.findD, GoMap.find, hzero]
  · simp [formatLine, field, GoMap.findD, GoMap.find, hsub]

/-- Witness of C10 on the pair `(ann, ETH)` of `sampleTrades`, which has a buy
row only. -/
theorem FormatData_buy_only_witness :
    intRuntime.sprintf2 intRuntime.zero = "0.00" ∧
    (∀ x, intRuntime.sub x intRuntime.zero = x) ∧
    RowsOK sampleTrades ∧
    sampleTrades.filter (tradeOf "ann" "ETH") = [["ann", "3", "ETH", "45", "0", "x"]] ∧
    ∃ um, ExtractUsersTrans intRuntime sampleTrades = some um ∧
      (∃ row ∈ FormatData intRuntime sampleNotes um, rowPair row = ("ann", "ETH")) ∧
      ∀ row ∈ FormatData intRuntime sampleNotes um, rowPair row = ("ann", "ETH") →
        field row 2 = "0.00" ∧ field row 4 = field row 3 :=
  ⟨by decide, fun x => Int.sub_zero x, sampleTrades_rowsOK, by decide,
    FormatData_buy_only intRuntime (by decide) (fun x => Int.sub_zero x) sampleTrades
      sampleTrades_rowsOK "ann" "ETH" ["ann", "3", "ETH", "45", "0", "x"] (by decide)
      sampleNotes⟩

end FormatClaims2

/-! ## The columns that `ExtractCandles` reads -/

section Columns

variable {F T E : Type}

theorem candleStep_readFields (rt : Runtime F T E) (m : GoMap (CandleNote F T))
    (r : List String) (hlen : 5 ≤ r.length) :
    candleStep rt m (readFields r) = candleStep rt m r := by
  match r, hlen with
  | c0 :: c1 :: c2 :: c3 :: c4 :: rest, _ =>
    simp [candleStep, readFields, field]

theorem candleLoop_readFields (rt : Runtime F T E) (rows : List (List String)) :
    ∀ m : GoMap (CandleNote F T), RowsOK rows →
      candleLoop rt m (rows.map readFields) = candleLoop rt m rows := by
  induction rows with
  | nil => intro m _; rfl
  | cons r rest ih =>
    intro m hrows
    simp only [List.map_cons, candleLoop,
      candleStep_readFields rt m r (hrows r (List.mem_cons_self _ _))]
    cases candleStep rt m r with
    | error f => rfl
    | ok m1 => exact ih m1 (fun x hx => hrows x (List.mem_cons_of_mem _ hx))

/-- C11, the reading of the code: the two four-field rows of the scenario end
in a read past the end of the row and give no summary; and on a five-field row
whose third, fourth and fifth fields are 100, 90 and 80 the maximum is the
fourth field and the minimum the fifth. -/
theorem ExtractCandles_four_fields :
    ExtractCandles isoRuntime
        [["BTC", "2023-01-01T00:00:00Z", "100", "90"],
         ["BTC", "2023-01-01T00:05:00Z", "120", "95"]] = .error .indexOutOfRange ∧
    ExtractCandles isoRuntime [["BTC", "2023-01-01T00:00:00Z", "100", "90", "80"]] =
      .ok [("BTC", ⟨"BTC", 80000000, 90000000, 10000000,
        ⟨2023, 1, 1, 0, 0, 0, 0, 0⟩, ⟨2023, 1, 1, 0, 0, 0, 0, 0⟩⟩)] :=
  ⟨rfl, rfl⟩

/-- C11 as amended: `ExtractCandles` reads a row as (instrument, timestamp,
skipped, highPrice, lowPrice, ...).  The result depends only on the first,
second, fourth and fifth fields; a single row gives the summary whose maximum
is its parsed fourth field and whose minimum is its parsed fifth field; and on
the rows (BTC, 2023-01-01T00:00:00Z, x, 100, 90, ...) and
(BTC, 2023-01-01T00:05:00Z, y, 120, 95, ...) the summary of BTC has the minimum
90 at 00:00:00, the maximum 120 at 00:05:00 and the income 30. -/
theorem ExtractCandles_columns (rt : Runtime F T E) (candles : List (List String))
    (hrows : RowsOK candles) (r : List String) (t : T) (hlen : 5 ≤ r.length)
    (ht : rt.parseTime (field r 1) = .ok t) :
    ExtractCandles rt (candles.map readFields) = ExtractCandles rt candles ∧
    ExtractCandles rt [r] = .ok [(field r 0,
      ⟨field r 0, (rt.parseFloat (field r 4)).1, (rt.parseFloat (field r 3)).1,
        rt.sub (rt.parseFloat (field r 3)).1 (rt.parseFloat (field r 4)).1, t, t⟩)] ∧
    ∀ (x y : String) (xs ys : List String),
      ExtractCandles isoRuntime
          [("BTC" :: "2023-01-01T00:00:00Z" :: x :: "100" :: "90" :: xs),
           ("BTC" :: "2023-01-01T00:05:00Z" :: y :: "120" :: "95" :: ys)] =
        .ok btcSummary := by
  refine ⟨candleLoop_readFields rt candles [] hrows, ?_, ?_⟩
  · have htime : candleTime rt r = some t := by simp [candleTime, ht]
    have hstep := candleStep_ok rt [] r t hlen htime
    have hval : ∀ s, (StringToFloat rt s).1 = (rt.parseFloat s).1 := by
      intro s
      unfold StringToFloat
      rcases rt.parseFloat s with ⟨f, _ | e⟩ <;> rfl
    simp only [ExtractCandles, candleLoop, hstep]
    simp [GoMap.store, GoMap.find, nextNote, candleName, candleHigh, candleLow, hval]
  · intro x y xs ys
    have h1 : isoRuntime.parseTime "2023-01-01T00:00:00Z" = .ok ⟨2023, 1, 1, 0, 0, 0, 0, 0⟩ :=
      rfl
    have h2 : isoRuntime.parseTime "2023-01-01T00:05:00Z" = .ok ⟨2023, 1, 1, 0, 5, 0, 0, 0⟩ :=
      rfl
    have h3 : StringToFloat isoRuntime "100" = (100000000, none) := rfl
    have h4 : StringToFloat isoRuntime "90" = (90000000, none) := rfl
    have h5 : StringToFloat isoRuntime "120" = (120000000, none) := rfl
    have h6 : StringToFloat isoRuntime "95" = (95000000, none) := rfl
    simp only [ExtractCandles, candleLoop, candleStep, List.getElem?_cons_succ,
      List.getElem?_cons_zero, h1, h2, h3, h4, h5, h6, GoMap.find, GoMap.store, if_true,
      updateNote]
    rfl

/-- Witness of C11 as amended, on `sampleCandles` and its first row. -/
theorem ExtractCandles_columns_witness :
    RowsOK sampleCandles ∧
    5 ≤ ["BTC", "1", "95", "100", "90", "97"].length ∧
    intRuntime.parseTime (field ["BTC", "1", "95", "100", "90", "97"] 1) = .ok 1 ∧
    ExtractCandles intRuntime (sampleCandles.map readFields) =
      ExtractCandles intRuntime sampleCandles ∧
    ExtractCandles intRuntime [["BTC", "1", "95", "100", "90", "97"]] =
      .ok [(field ["BTC", "1", "95", "100", "90", "97"] 0,
        ⟨field ["BTC", "1", "95", "100", "90", "97"] 0,
          (intRuntime.parseFloat (field ["BTC", "1", "95", "100", "90", "97"] 4)).1,
          (intRuntime.parseFloat (field ["BTC", "1", "95", "100", "90", "97"] 3)).1,
          intRuntime.sub (intRuntime.parseFloat (field ["BTC", "1", "95", "100", "90", "97"] 3)).1
            (intRuntime.parseFloat (field ["BTC", "1", "95", "100", "90", "97"] 4)).1, 1, 1⟩)] ∧
    ∀ (x y : String) (xs ys : List String),
      ExtractCandles isoRuntime
          [("BTC" :: "2023-01-01T00:00:00Z" :: x :: "100" :: "90" :: xs),
           ("BTC" :: "2023-01-01T00:05:00Z" :: y :: "120" :: "95" :: ys)] =
        .ok btcSummary :=
  ⟨sampleCandles_rowsOK, by decide, rfl,
    ExtractCandles_columns intRuntime sampleCandles sampleCandles_rowsOK
      ["BTC", "1", "95", "100", "90", "97"] 1 (by decide) rfl⟩

end Columns

/-! ## The shape of an output row -/

section RowShape

variable {F T E : Type}

/-- C12: every row that `FormatData` emits has exactly seven fields, in the
order userId, instrument, userIncome, maxIncome, shortfall, saleWindowEnd (the
`maxPriceTime` of the instrument) and saleWindowStart (its `minPriceTime`).  In
particular, with the candle summary of BTC (minimum 90 at 2023-01-01T00:00:00Z,
maximum 120 at 2023-01-01T00:05:00Z, income 30) and the two trade rows of one
user `u`, a buy at 95 on BTC followed by a sale at 110 on BTC, the output is the
single row `u, BTC, 15.00, 30.00, 15.00, 2023-01-01T00:05:00Z,
2023-01-01T00:00:00Z`. -/
theorem FormatData_row_shape (rt : Runtime F T E) (cm : GoMap (CandleNote F T))
    (um : GoMap (UserNote F)) (row : List String) (hrow : row ∈ FormatData rt cm um) :
    (row.length = 7 ∧
      ∃ u note i ticker, um.find u = some note ∧ (i, ticker) ∈ note.tickers ∧
        row = [u, i, rt.sprintf2 (ticker.findD "income" rt.zero),
          rt.sprintf2 (cm.findD i (CandleNote.zeroValue rt)).income,
          rt.sprintf2 (rt.sub (cm.findD i (CandleNote.zeroValue rt)).income
            (ticker.findD "income" rt.zero)),
          rt.formatTime (cm.findD i (CandleNote.zeroValue rt)).maxPriceTime,
          rt.formatTime (cm.findD i (CandleNote.zeroValue rt)).minPriceTime]) ∧
    ∀ (u t1 t2 s1 b2 : String) (xs ys : List String),
      ∃ users, ExtractUsersTrans isoRuntime
          [(u :: t1 :: "BTC" :: "95" :: s1 :: xs), (u :: t2 :: "BTC" :: b2 :: "110" :: ys)] =
            some users ∧
        FormatData isoRuntime btcSummary users =
          [[u, "BTC", "15.00", "30.00", "15.00", "2023-01-01T00:05:00Z",
            "2023-01-01T00:00:00Z"]] := by
  constructor
  · obtain ⟨u, hu, entry, hentry, rfl⟩ := (mem_FormatData rt cm um row).mp hrow
    obtain ⟨note, hnote⟩ := (mem_keys_iff_find um u).mp hu
    have hD : um.findD u UserNote.zeroValue = note := by
      simp [GoMap.findD, hnote]
    rw [hD] at hentry
    exact ⟨rfl, u, note, entry.1, entry.2, hnote, hentry, rfl⟩
  · intro u t1 t2 s1 b2 xs ys
    have h1 : StringToFloat isoRuntime "95" = (95000000, none) := rfl
    have h2 : StringToFloat isoRuntime "110" = (110000000, none) := rfl
    have h3 : isoRuntime.sub 110000000 95000000 = 15000000 := rfl
    have h4 : isoRuntime.sub 30000000 15000000 = 15000000 := rfl
    have h5 : isoRuntime.sprintf2 15000000 = "15.00" := by decide
    have h6 : isoRuntime.sprintf2 30000000 = "30.00" := by decide
    have h7 : isoRuntime.formatTime ⟨2023, 1, 1, 0, 5, 0, 0, 0⟩ = "2023-01-01T00:05:00Z" := by
      decide
    have h8 : isoRuntime.formatTime ⟨2023, 1, 1, 0, 0, 0, 0, 0⟩ = "2023-01-01T00:00:00Z" := by
      decide
    refine ⟨[(u, ⟨u, [("BTC", [("buyPrice", 95000000), ("salePrice", 110000000),
      ("income", 15000000)])]⟩)], ?_, ?_⟩
    · simp [ExtractUsersTrans, usersLoop, usersStep, GoMap.find, GoMap.store, GoMap.findD,
        h1, h2, h3]
    · simp [FormatData, formatLine, GoMap.keys, GoMap.find, GoMap.findD, btcSummary,
        h4, h5, h6, h7, h8]

/-- Witness of C12 on the row of the pair `(ann, BTC)` of the sample maps. -/
theorem FormatData_row_shape_witness :
    ["ann", "BTC", "15.00", "30.00", "15.00", "3", "1"] ∈
      FormatData intRuntime sampleNotes sampleUsers ∧
    (["ann", "BTC", "15.00", "30.00", "15.00", "3", "1"].length = 7 ∧
      ∃ u note i ticker, sampleUsers.find u = some note ∧ (i, ticker) ∈ note.tickers ∧
        ["ann", "BTC", "15.00", "30.00", "15.00", "3", "1"] =
          [u, i, intRuntime.sprintf2 (ticker.findD "income" intRuntime.zero),
          intRuntime.sprintf2 (sampleNotes.findD i (CandleNote.zeroValue intRuntime)).income,
          intRuntime.sprintf2 (intRuntime.sub
            (sampleNotes.findD i (CandleNote.zeroValue intRuntime)).income
            (ticker.findD "income" intRuntime.zero)),
          intRuntime.formatTime (sampleNotes.findD i (CandleNote.zeroValue intRuntime)).maxPriceTime,
          intRuntime.formatTime
            (sampleNotes.findD i (CandleNote.zeroValue intRuntime)).minPriceTime]) ∧
    ∀ (u t1 t2 s1 b2 : String) (xs ys : List String),
      ∃ users, ExtractUsersTrans isoRuntime
          [(u :: t1 :: "BTC" :: "95" :: s1 :: xs), (u :: t2 :: "BTC" :: b2 :: "110" :: ys)] =
            some users ∧
        FormatData isoRuntime btcSummary users =
          [[u, "BTC", "15.00", "30.00", "15.00", "2023-01-01T00:05:00Z",
            "2023-01-01T00:00:00Z"]] :=
  ⟨by decide, FormatData_row_shape intRuntime sampleNotes sampleUsers _ (by decide)⟩

end RowShape

/-! ## `ExtractCandles` on a permutation of the rows -/

section Permutation

variable {F T E : Type}

theorem mem_prices_low (rt : Runtime F T E) {candles : List (List String)} {r : List String}
    (hr : r ∈ candles) : candleLow rt r ∈ prices rt candles :=
  List.mem_flatMap.mpr ⟨r, hr, by simp⟩

theorem mem_prices_high (rt : Runtime F T E) {candles : List (List String)} {r : List String}
    (hr : r ∈ candles) : candleHigh rt r ∈ prices rt candles :=
  List.mem_flatMap.mpr ⟨r, hr, by simp⟩

theorem extreme_unique (rt : Runtime F T E) (a b : F)
    (hcmp : rt.lt a b = true ∨ a = b ∨ rt.lt b a = true)
    (hab : rt.lt a b = false) (hba : rt.lt b a = false) : a = b := by
  rcases hcmp with h | h | h
  · rw [hab] at h
    exact absurd h (by simp)
  · exact h
  · rw [hba] at h
    exact absurd h (by simp)

variable [DecidableEq F]

theorem Summarises_attained (rt : Runtime F T E) {k : String} {seen : List (List String)}
    {note : CandleNote F T} (h : Summarises rt k seen note) :
    (∃ r ∈ seen, candleName r = k ∧ candleLow rt r = note.minPrice ∧
      candleTime rt r = some note.minPriceTime) ∧
    (∃ r ∈ seen, candleName r = k ∧ candleHigh rt r = note.maxPrice ∧
      candleTime rt r = some note.maxPriceTime) := by
  obtain ⟨_, ⟨r1, hr1, ht1⟩, _, ⟨r2, hr2, ht2⟩⟩ := h
  constructor
  · have hp := List.find?_some hr1
    simp only [decide_eq_true_eq] at hp
    exact ⟨r1, List.mem_of_find?_eq_some hr1, hp.1, hp.2, ht1⟩
  · have hp := List.find?_some hr2
    simp only [decide_eq_true_eq] at hp
    exact ⟨r2, List.mem_of_find?_eq_some hr2, hp.1, hp.2, ht2⟩

theorem ExtractCandles_summaries (rt : Runtime F T E) (hord : StrictOrder rt)
    (candles : List (List String)) (hrows : RowsOK candles) (htimes : TimesOK rt candles) :
    ∃ m, ExtractCandles rt candles = .ok m ∧ (∀ k, KeyInv rt k candles (m.find k)) ∧
      ∀ entry ∈ m, entry.2.income = rt.sub entry.2.maxPrice entry.2.minPrice := by
  obtain ⟨m, hm, hinv⟩ := ExtractCandles_KeyInv rt hord candles hrows htimes
  obtain ⟨m1, hm1, hinc⟩ := candleLoop_income rt candles [] (by simp) hrows htimes
  have heq : m1 = m := by
    have h : Except.ok m1 = (Except.ok m : Except (Fault E) _) := by
      rw [← hm1, ← hm]
      rfl
    exact Except.ok.inj h
  exact ⟨m, hm, hinv, heq ▸ hinc⟩

/-- C13 as amended: for two lists of candle rows that are permutations of each
other, with their five fields, timestamps that all parse and prices that are
ordered numbers (any two parsed prices are equal or one is below the other, so
none is NaN), `ExtractCandles` returns maps with the same instruments and, for each
instrument, the same `minPrice`, `maxPrice` and `income`; the `minPriceTime`
(resp. `maxPriceTime`) of the two differs only when two different rows of the
instrument attain the minimum low price (resp. the maximum high price). -/
theorem ExtractCandles_perm (rt : Runtime F T E) (hord : StrictOrder rt)
    (c1 c2 : List (List String)) (hperm : c1.Perm c2)
    (hrows : RowsOK c1) (htimes : TimesOK rt c1) (hcmp : PricesComparable rt c1) :
    ∃ m1 m2, ExtractCandles rt c1 = .ok m1 ∧ ExtractCandles rt c2 = .ok m2 ∧
      ∀ k, (m1.find k = none ↔ m2.find k = none) ∧
        ∀ n1 n2, m1.find k = some n1 → m2.find k = some n2 →
          n1.minPrice = n2.minPrice ∧ n1.maxPrice = n2.maxPrice ∧ n1.income = n2.income ∧
          (n1.minPriceTime ≠ n2.minPriceTime →
            ∃ ra ∈ c1, ∃ rb ∈ c1, ra ≠ rb ∧ candleName ra = k ∧ candleName rb = k ∧
              candleLow rt ra = n1.minPrice ∧ candleLow rt rb = n1.minPrice) ∧
          (n1.maxPriceTime ≠ n2.maxPriceTime →
            ∃ ra ∈ c1, ∃ rb ∈ c1, ra ≠ rb ∧ candleName ra = k ∧ candleName rb = k ∧
              candleHigh rt ra = n1.maxPrice ∧ candleHigh rt rb = n1.maxPrice) := by
  have hrows2 : RowsOK c2 := fun r hr => hrows r (hperm.mem_iff.mpr hr)
  have htimes2 : TimesOK rt c2 := fun r hr => htimes r (hperm.mem_iff.mpr hr)
  obtain ⟨m1, hm1, hinv1, hinc1⟩ := ExtractCandles_summaries rt hord c1 hrows htimes
  obtain ⟨m2, hm2, hinv2, hinc2⟩ := ExtractCandles_summaries rt hord c2 hrows2 htimes2
  refine ⟨m1, m2, hm1, hm2, fun k => ⟨?_, ?_⟩⟩
  · constructor
    · intro h1
      cases h2 : m2.find k with
      | none => rfl
      | some n2 =>
        have i1 := hinv1 k
        have i2 := hinv2 k
        rw [h1] at i1
        rw [h2] at i2
        obtain ⟨⟨r, hr, hrk, _⟩, _⟩ := Summarises_attained rt i2
        exact absurd hrk (i1 r (hperm.mem_iff.mpr hr))
    · intro h2
      cases h1 : m1.find k with
      | none => rfl
      | some n1 =>
        have i1 := hinv1 k
        have i2 := hinv2 k
        rw [h1] at i1
        rw [h2] at i2
        obtain ⟨⟨r, hr, hrk, _⟩, _⟩ := Summarises_attained rt i1
        exact absurd hrk (i2 r (hperm.mem_iff.mp hr))
  · intro n1 n2 h1 h2
    have i1 := hinv1 k
    have i2 := hinv2 k
    rw [h1] at i1
    rw [h2] at i2
    have s1 : Summarises rt k c1 n1 := i1
    have s2 : Summarises rt k c2 n2 := i2
    obtain ⟨⟨ra, hra, hrak, hralow, hrat⟩, ⟨rc, hrc, hrck, hrchigh, hrct⟩⟩ :=
      Summarises_attained rt s1
    obtain ⟨⟨rb, hrb, hrbk, hrblow, hrbt⟩, ⟨rd, hrd, hrdk, hrdhigh, hrdt⟩⟩ :=
      Summarises_attained rt s2
    have hrb1 : rb ∈ c1 := hperm.mem_iff.mpr hrb
    have hrd1 : rd ∈ c1 := hperm.mem_iff.mpr hrd
    have hmin : n1.minPrice = n2.minPrice := by
      have e1 : rt.lt n2.minPrice n1.minPrice = false := by
        rw [← hrblow]
        exact s1.1 rb hrb1 hrbk
      have e2 : rt.lt n1.minPrice n2.minPrice = false := by
        rw [← hralow]
        exact s2.1 ra (hperm.mem_iff.mp hra) hrak
      have hc := hcmp _ (mem_prices_low rt hra) _ (mem_prices_low rt hrb1)
      rw [hralow, hrblow] at hc
      exact extreme_unique rt _ _ hc e2 e1
    have hmax : n1.maxPrice = n2.maxPrice := by
      have e1 : rt.lt n1.maxPrice n2.maxPrice = false := by
        rw [← hrdhigh]
        exact s1.2.2.1 rd hrd1 hrdk
      have e2 : rt.lt n2.maxPrice n1.maxPrice = false := by
        rw [← hrchigh]
        exact s2.2.2.1 rc (hperm.mem_iff.mp hrc) hrck
      have hc := hcmp _ (mem_prices_high rt hrc) _ (mem_prices_high rt hrd1)
      rw [hrchigh, hrdhigh] at hc
      exact extreme_unique rt _ _ hc e1 e2
    refine ⟨hmin, hmax, ?_, ?_, ?_⟩
    · rw [hinc1 _ (GoMap.mem_of_find h1), hinc2 _ (GoMap.mem_of_find h2)]
      simp only [hmin, hmax]
    · intro hne
      refine ⟨ra, hra, rb, hrb1, ?_, hrak, hrbk, hralow, by rw [hrblow, hmin]⟩
      intro heq
      rw [heq, hrbt] at hrat
      exact hne (Option.some.inj hrat).symm
    · intro hne
      refine ⟨rc, hrc, rd, hrd1, ?_, hrck, hrdk, hrchigh, by rw [hrdhigh, hmax]⟩
      intro heq
      rw [heq, hrdt] at hrct
      exact hne (Option.some.inj hrct).symm

end Permutation

theorem intRuntime_comparable (candles : List (List String)) :
    PricesComparable intRuntime candles := by
  intro a _ b _
  simp only [intRuntime, decide_eq_true_eq]
  omega

/-- Witness of C13 as amended, on `sampleCandles` and its reversal. -/
theorem ExtractCandles_perm_witness :
    StrictOrder intRuntime ∧ sampleCandles.Perm sampleCandles.reverse ∧
    RowsOK sampleCandles ∧ TimesOK intRuntime sampleCandles ∧
    PricesComparable intRuntime sampleCandles ∧
    ∃ m1 m2, ExtractCandles intRuntime sampleCandles = .ok m1 ∧
      ExtractCandles intRuntime sampleCandles.reverse = .ok m2 ∧
      ∀ k, (m1.find k = none ↔ m2.find k = none) ∧
        ∀ n1 n2, m1.find k = some n1 → m2.find k = some n2 →
          n1.minPrice = n2.minPrice ∧ n1.maxPrice = n2.maxPrice ∧ n1.income = n2.income ∧
          (n1.minPriceTime ≠ n2.minPriceTime →
            ∃ ra ∈ sampleCandles, ∃ rb ∈ sampleCandles, ra ≠ rb ∧ candleName ra = k ∧
              candleName rb = k ∧ candleLow intRuntime ra = n1.minPrice ∧
              candleLow intRuntime rb = n1.minPrice) ∧
          (n1.maxPriceTime ≠ n2.maxPriceTime →
            ∃ ra ∈ sampleCandles, ∃ rb ∈ sampleCandles, ra ≠ rb ∧ candleName ra = k ∧
              candleName rb = k ∧ candleHigh intRuntime ra = n1.maxPrice ∧
              candleHigh intRuntime rb = n1.maxPrice) :=
  ⟨intRuntime_strictOrder, (List.reverse_perm sampleCandles).symm, sampleCandles_rowsOK,
    sampleCandles_timesOK, intRuntime_comparable sampleCandles,
    ExtractCandles_perm intRuntime intRuntime_strictOrder sampleCandles sampleCandles.reverse
      (List.reverse_perm sampleCandles).symm sampleCandles_rowsOK sampleCandles_timesOK
      (intRuntime_comparable sampleCandles)⟩

/-! ## Errors of the price parser -/

section ParseErrors

variable {F T E : Type}

theorem StringToFloat_fst (rt : Runtime F T E) (s : String) :
    (StringToFloat rt s).1 = (rt.parseFloat s).1 := by
  unfold StringToFloat
  rcases rt.parseFloat s with ⟨f, _ | e⟩ <;> rfl

theorem StringToFloat_silent (rt : Runtime F T E) (s : String) :
    (StringToFloat (silent rt) s).1 = (StringToFloat rt s).1 := by
  rw [StringToFloat_fst, StringToFloat_fst]
  rfl

theorem candleStep_silent (rt : Runtime F T E) (m : GoMap (CandleNote F T))
    (r : List String) : candleStep (silent rt) m r = candleStep rt m r := by
  unfold candleStep
  simp only [StringToFloat_silent]
  rfl

theorem candleLoop_silent (rt : Runtime F T E) (rows : List (List String)) :
    ∀ m : GoMap (CandleNote F T), candleLoop (silent rt) m rows = candleLoop rt m rows := by
  induction rows with
  | nil => intro m; rfl
  | cons r rest ih =>
    intro m
    simp only [candleLoop, candleStep_silent]
    cases candleStep rt m r with
    | error f => rfl
    | ok m1 => exact ih m1

theorem usersStep_silent (rt : Runtime F T E) (m : GoMap (UserNote F))
    (r : List String) : usersStep (silent rt) m r = usersStep rt m r := by
  unfold usersStep
  simp only [StringToFloat_silent]
  rfl

theorem usersLoop_silent (rt : Runtime F T E) (rows : List (List String)) :
    ∀ m : GoMap (UserNote F), usersLoop (silent rt) m rows = usersLoop rt m rows := by
  induction rows with
  | nil => intro m; rfl
  | cons r rest ih =>
    intro m
    simp only [usersLoop, usersStep_silent]
    cases usersStep rt m r with
    | none => rfl
    | some m1 => exact ih m1

/-- C14: a price field that is not a numeral never makes `ExtractCandles` or
`ExtractUsersTrans` fail or skip a row.  Both compute exactly what they compute
when no parse reports an error, that is, with the value that each parse
returned; so on rows with their five fields the only error of `ExtractCandles`
is the timestamp error of one of the rows, and `ExtractUsersTrans` returns a
map. -/
theorem price_errors_ignored (rt : Runtime F T E) (candles users : List (List String))
    (hcandles : RowsOK candles) (husers : RowsOK users) :
    ExtractCandles (silent rt) candles = ExtractCandles rt candles ∧
    ExtractUsersTrans (silent rt) users = ExtractUsersTrans rt users ∧
    (∀ r, candleHigh rt r = (rt.parseFloat (field r 3)).1 ∧
      candleLow rt r = (rt.parseFloat (field r 4)).1 ∧
      tradeBuy rt r = (rt.parseFloat (field r 3)).1 ∧
      tradeSale rt r = (rt.parseFloat (field r 4)).1) ∧
    (∀ f, ExtractCandles rt candles = .error f →
      ∃ r ∈ candles, ∃ e, rt.parseTime (field r 1) = .error e ∧ f = .returned e) ∧
    ∃ m, ExtractUsersTrans rt users = some m := by
  refine ⟨candleLoop_silent rt candles [], usersLoop_silent rt users [], ?_, ?_, ?_⟩
  · intro r
    exact ⟨StringToFloat_fst rt _, StringToFloat_fst rt _, StringToFloat_fst rt _,
      StringToFloat_fst rt _⟩
  · intro f hf
    cases hb : firstBadTime rt candles with
    | none =>
      obtain ⟨m, hm, _⟩ := candleLoop_find rt candles [] hcandles
        (timesOK_of_firstBadTime rt candles hb)
      have hm1 : ExtractCandles rt candles = .ok m := hm
      rw [hm1] at hf
      cases hf
    | some r =>
      obtain ⟨e, he, herr⟩ := ExtractCandles_firstBadTime rt candles hcandles r hb
      rw [herr] at hf
      exact ⟨r, List.mem_of_find?_eq_some hb, e, he, (Except.error.inj hf).symm⟩
  · obtain ⟨m, hm, _⟩ := usersLoop_tickerOf rt users [] husers
    exact ⟨m, hm⟩

end ParseErrors

theorem noisyCandles_rowsOK : RowsOK noisyCandles := by
  intro r hr
  simp only [noisyCandles, List.mem_cons, List.mem_singleton, List.not_mem_nil, or_false] at hr
  rcases hr with h | h <;> subst h <;> decide

theorem noisyTrades_rowsOK : RowsOK noisyTrades := by
  intro r hr
  simp only [noisyTrades, List.mem_cons, List.mem_singleton, List.not_mem_nil, or_false] at hr
  rcases hr with h | h <;> subst h <;> decide

/-- Witness of C14 on rows whose price fields `n/a`, `high`, `cheap` and the
empty field are not numerals: each parse returns zero and an error, and the rows
are processed with the value zero. -/
theorem price_errors_ignored_witness :
    RowsOK noisyCandles ∧ RowsOK noisyTrades ∧
    isoRuntime.parseFloat "n/a" = (0, some "invalid syntax") ∧
    isoRuntime.parseFloat "high" = (0, some "invalid syntax") ∧
    isoRuntime.parseFloat "cheap" = (0, some "invalid syntax") ∧
    isoRuntime.parseFloat "" = (0, some "invalid syntax") ∧
    ExtractCandles isoRuntime noisyCandles =
      .ok [("BTC", ⟨"BTC", 0, 120000000, 120000000,
        ⟨2023, 1, 1, 0, 5, 0, 0, 0⟩, ⟨2023, 1, 1, 0, 5, 0, 0, 0⟩⟩)] ∧
    ExtractUsersTrans isoRuntime noisyTrades =
      some [("u", ⟨"u", [("BTC", [("buyPrice", 0), ("salePrice", 110000000),
        ("income", 110000000)])]⟩)] ∧
    ExtractCandles (silent isoRuntime) noisyCandles = ExtractCandles isoRuntime noisyCandles ∧
    ExtractUsersTrans (silent isoRuntime) noisyTrades =
      ExtractUsersTrans isoRuntime noisyTrades ∧
    (∀ r, candleHigh isoRuntime r = (isoRuntime.parseFloat (field r 3)).1 ∧
      candleLow isoRuntime r = (isoRuntime.parseFloat (field r 4)).1 ∧
      tradeBuy isoRuntime r = (isoRuntime.parseFloat (field r 3)).1 ∧
      tradeSale isoRuntime r = (isoRuntime.parseFloat (field r 4)).1) ∧
    (∀ f, ExtractCandles isoRuntime noisyCandles = .error f →
      ∃ r ∈ noisyCandles, ∃ e, isoRuntime.parseTime (field r 1) = .error e ∧
        f = .returned e) ∧
    ∃ m, ExtractUsersTrans isoRuntime noisyTrades = some m :=
  ⟨noisyCandles_rowsOK, noisyTrades_rowsOK, rfl, rfl, rfl, rfl, rfl, rfl,
    price_errors_ignored isoRuntime noisyCandles noisyTrades noisyCandles_rowsOK
      noisyTrades_rowsOK⟩

/-! ## The sale price and the income of a ticker -/

section SalePrice

variable {F T E : Type}

theorem saleUpdate_find_salePrice (rt : Runtime F T E) (ticker : GoMap F) (s : F) :
    (saleUpdate rt ticker s).find "salePrice" = some s := by
  unfold saleUpdate
  rw [GoMap.find_store_of_ne _ _ (by decide), GoMap.find_store_self]

theorem foldl_nextTicker_sale (rt : Runtime F T E) (b : F) (rest : List (List String)) :
    ∀ ticker : GoMap F, ticker.find "buyPrice" = some b →
      ∃ ticker1, rest.foldl (fun o r => some (nextTicker rt o r)) (some ticker) = some ticker1 ∧
        (rest = [] → ticker1 = ticker) ∧
        ∀ rl, rest.getLast? = some rl →
          ticker1.find "salePrice" = some (tradeSale rt rl) ∧
          ticker1.find "income" = some (rt.sub (tradeSale rt rl) b) := by
  induction rest with
  | nil =>
    intro ticker _
    exact ⟨ticker, rfl, fun _ => rfl, fun rl h => by simp at h⟩
  | cons r rest ih =>
    intro ticker hb
    have hb1 : (saleUpdate rt ticker (tradeSale rt r)).find "buyPrice" = some b := by
      rw [saleUpdate_find_buyPrice]
      exact hb
    obtain ⟨ticker1, hfold, hnil, hlast⟩ := ih _ hb1
    refine ⟨ticker1, by simpa [List.foldl_cons, nextTicker] using hfold, by simp, ?_⟩
    intro rl hrl
    cases rest with
    | nil =>
      have h1 : ticker1 = saleUpdate rt ticker (tradeSale rt r) := hnil rfl
      have h2 : rl = r := by
        simpa using hrl.symm
      rw [h1, h2, saleUpdate_find_salePrice, saleUpdate_find_income]
      simp [GoMap.findD, hb]
    | cons x xs =>
      exact hlast rl (by simpa [List.getLast?_cons_cons] using hrl)

/-- C15: for a pair `(u, i)` whose rows are `r1` followed by `rest`, the ticker
entry that `ExtractUsersTrans` returns carries a `salePrice` and an `income`
exactly when `rest` is not empty, that is, when the pair occurs in at least two
rows; then `salePrice` is the sale-price field of the last row of the pair and
`income` is that value minus the buy-price field of the first row. -/
theorem ExtractUsersTrans_salePrice (rt : Runtime F T E) (users : List (List String))
    (hrows : RowsOK users) (u i : String) (r1 : List String) (rest : List (List String))
    (hpair : users.filter (tradeOf u i) = r1 :: rest) :
    ∃ m note ticker, ExtractUsersTrans rt users = some m ∧ m.find u = some note ∧
      note.tickers.find i = some ticker ∧
      ((ticker.find "salePrice").isSome = true ↔ rest ≠ []) ∧
      ((ticker.find "income").isSome = true ↔ rest ≠ []) ∧
      ∀ rl, rest.getLast? = some rl →
        ticker.find "salePrice" = some (tradeSale rt rl) ∧
        ticker.find "income" = some (rt.sub (tradeSale rt rl) (tradeBuy rt r1)) := by
  obtain ⟨m, hm, hfind⟩ := ExtractUsersTrans_tickerOf rt users hrows
  have h := hfind u i
  rw [hpair, List.foldl_cons] at h
  obtain ⟨ticker, hfold, hnil, hlast⟩ := foldl_nextTicker_sale rt (tradeBuy rt r1) rest
    (nextTicker rt none r1) (by simp [nextTicker, GoMap.find])
  rw [hfold] at h
  obtain ⟨note, hnote, hticker⟩ := tickerOf_eq_some h
  refine ⟨m, note, ticker, hm, hnote, hticker, ?_, ?_, hlast⟩
  · constructor
    · intro hs hrest
      rw [hnil hrest] at hs
      simp [nextTicker, GoMap.find] at hs
    · intro hrest
      obtain ⟨rl, hrl⟩ : ∃ rl, rest.getLast? = some rl := by
        cases hl : rest.getLast? with
        | none => exact absurd (List.getLast?_eq_none_iff.mp hl) hrest
        | some rl => exact ⟨rl, rfl⟩
      rw [(hlast rl hrl).1]
      rfl
  · constructor
    · intro hs hrest
      rw [hnil hrest] at hs
      simp [nextTicker, GoMap.find] at hs
    · intro hrest
      obtain ⟨rl, hrl⟩ : ∃ rl, rest.getLast? = some rl := by
        cases hl : rest.getLast? with
        | none => exact absurd (List.getLast?_eq_none_iff.mp hl) hrest
        | some rl => exact ⟨rl, rfl⟩
      rw [(hlast rl hrl).2]
      rfl

end SalePrice

/-- Witness of C15 on `sampleTrades` and the pair `(ann, BTC)`, which occurs in
two rows. -/
theorem ExtractUsersTrans_salePrice_witness :
    RowsOK sampleTrades ∧
    sampleTrades.filter (tradeOf "ann" "BTC") =
      ["ann", "1", "BTC", "95", "0", "x"] :: [["ann", "4", "BTC", "0", "110", "x"]] ∧
    ∃ m note ticker, ExtractUsersTrans intRuntime sampleTrades = some m ∧
      m.find "ann" = some note ∧ note.tickers.find "BTC" = some ticker ∧
      ((ticker.find "salePrice").isSome = true ↔ [["ann", "4", "BTC", "0", "110", "x"]] ≠ []) ∧
      ((ticker.find "income").isSome = true ↔ [["ann", "4", "BTC", "0", "110", "x"]] ≠ []) ∧
      ∀ rl, [["ann", "4", "BTC", "0", "110", "x"]].getLast? = some rl →
        ticker.find "salePrice" = some (tradeSale intRuntime rl) ∧
        ticker.find "income" =
          some (intRuntime.sub (tradeSale intRuntime rl)
            (tradeBuy intRuntime ["ann", "1", "BTC", "95", "0", "x"])) :=
  ⟨sampleTrades_rowsOK, by decide,
    ExtractUsersTrans_salePrice intRuntime sampleTrades sampleTrades_rowsOK "ann" "BTC"
      ["ann", "1", "BTC", "95", "0", "x"] [["ann", "4", "BTC", "0", "110", "x"]] (by decide)⟩

/-! ## Low below high -/

section Spread

variable {F T E : Type}

theorem candleLoop_WF (rt : Runtime F T E) (rows : List (List String)) :
    ∀ m : GoMap (CandleNote F T), GoMap.WF m → RowsOK rows → TimesOK rt rows →
      ∀ m1, candleLoop rt m rows = .ok m1 → GoMap.WF m1 := by
  induction rows with
  | nil =>
    intro m hwf _ _ m1 h
    have h1 : m = m1 := Except.ok.inj h
    exact h1 ▸ hwf
  | cons r rest ih =>
    intro m hwf hlen htime m1 h
    obtain ⟨t, ht⟩ := htime r (List.mem_cons_self _ _)
    have hstep := candleStep_ok rt m r t (hlen r (List.mem_cons_self _ _)) ht
    simp only [candleLoop, hstep] at h
    exact ih _ (GoMap.WF_store hwf _ _) (fun x hx => hlen x (List.mem_cons_of_mem _ hx))
      (fun x hx => htime x (List.mem_cons_of_mem _ hx)) m1 h

variable [DecidableEq F]

/-- C18 as amended: for candle rows with their five fields, timestamps that
all parse and prices that are finite ordered numbers (any two are equal or one
is below the other, and the difference `b - a` of `a ≤ b` is zero or above
zero), if every row has a low price equal to or below its high price then every
summary that `ExtractCandles` returns has `minPrice` equal to or below
`maxPrice` and an income equal to or above zero.  Without the condition on the
rows the income can be negative: the single row with high 90 and low 100 gives
the income -10. -/
theorem ExtractCandles_spread (rt : Runtime F T E) (hord : StrictOrder rt)
    (candles : List (List String)) (hrows : RowsOK candles) (htimes : TimesOK rt candles)
    (hcmp : PricesComparable rt candles) (hsub : SpreadsNonneg rt candles)
    (hlow : ∀ r ∈ candles,
      candleLow rt r = candleHigh rt r ∨ rt.lt (candleLow rt r) (candleHigh rt r) = true) :
    (∃ m, ExtractCandles rt candles = .ok m ∧
      ∀ entry ∈ m,
        (entry.2.minPrice = entry.2.maxPrice ∨
          rt.lt entry.2.minPrice entry.2.maxPrice = true) ∧
        (entry.2.income = rt.zero ∨ rt.lt rt.zero entry.2.income = true)) ∧
    ∃ m note, ExtractCandles isoRuntime [["BTC", "2023-01-01T00:00:00Z", "", "90", "100"]] =
        .ok m ∧ m.find "BTC" = some note ∧ note.income = -10000000 ∧
      isoRuntime.lt note.income isoRuntime.zero = true := by
  constructor
  · obtain ⟨m, hm, hinv, hinc⟩ := ExtractCandles_summaries rt hord candles hrows htimes
    have hwf : GoMap.WF m :=
      candleLoop_WF rt candles [] (by simp [GoMap.WF, GoMap.keys]) hrows htimes m hm
    refine ⟨m, hm, ?_⟩
    rintro ⟨k, note⟩ hentry
    have hfind := GoMap.find_of_mem hwf hentry
    have hk := hinv k
    rw [hfind] at hk
    have hs : Summarises rt k candles note := hk
    obtain ⟨⟨ra, hra, hrak, hralow, _⟩, ⟨rc, hrc, hrck, hrchigh, _⟩⟩ :=
      Summarises_attained rt hs
    have h2 : rt.lt (candleHigh rt rc) (candleLow rt rc) = false := by
      rcases hlow rc hrc with h | h
      · rw [h]
        exact hord.1 _
      · cases hc : rt.lt (candleHigh rt rc) (candleLow rt rc) with
        | false => rfl
        | true =>
          have h3 := hord.2 _ _ _ h hc
          rw [hord.1] at h3
          exact absurd h3 (by simp)
    have hnot : rt.lt note.maxPrice note.minPrice = false := by
      cases hc : rt.lt note.maxPrice note.minPrice with
      | false => rfl
      | true =>
        have h1 : rt.lt (candleLow rt rc) note.minPrice = false := hs.1 rc hrc hrck
        rw [hrchigh] at h2
        rcases hcmp _ (mem_prices_low rt hrc) _ (mem_prices_low rt hra) with h | h | h
        · rw [hralow, h1] at h
          exact absurd h (by simp)
        · rw [h, hralow, hc] at h2
          exact absurd h2 (by simp)
        · rw [hralow] at h
          have h3 := hord.2 _ _ _ hc h
          rw [h2] at h3
          exact absurd h3 (by simp)
    have hle : note.minPrice = note.maxPrice ∨ rt.lt note.minPrice note.maxPrice = true := by
      have hc := hcmp _ (mem_prices_low rt hra) _ (mem_prices_high rt hrc)
      rw [hralow, hrchigh] at hc
      rcases hc with h | h | h
      · exact Or.inr h
      · exact Or.inl h
      · rw [hnot] at h
        exact absurd h (by simp)
    refine ⟨hle, ?_⟩
    have hi : note.income = rt.sub note.maxPrice note.minPrice := hinc _ hentry
    have h4 := hsub _ (mem_prices_low rt hra) _ (mem_prices_high rt hrc)
    rw [hralow, hrchigh] at h4
    have h5 : (CandleNote.income note) = rt.sub note.maxPrice note.minPrice := hi
    show (note.income = rt.zero ∨ rt.lt rt.zero note.income = true)
    rw [h5]
    exact h4 hle
  · exact ⟨_, _, rfl, rfl, rfl, rfl⟩

/-- C18, the run of the code on a row whose high and low prices are both
infinite: the low price is equal to, hence not above, the high price, and the
income is the difference of two infinities, NaN, which is not at or above
zero. -/
theorem ExtractCandles_infinite_spread :
    ExtractCandles ieeeRuntime infiniteRow =
      .ok [("BTC", ⟨"BTC", .posInf, .posInf, .nan,
        ⟨2023, 1, 1, 0, 0, 0, 0, 0⟩, ⟨2023, 1, 1, 0, 0, 0, 0, 0⟩⟩)] ∧
    (∀ r ∈ infiniteRow,
      GoFloat.le (candleLow ieeeRuntime r) (candleHigh ieeeRuntime r) = true) ∧
    GoFloat.le ieeeRuntime.zero GoFloat.nan = false :=
  ⟨rfl, by decide, rfl⟩

end Spread

theorem intRuntime_spreads (candles : List (List String)) :
    SpreadsNonneg intRuntime candles := by
  intro a _ b _
  simp only [intRuntime, decide_eq_true_eq]
  omega

theorem sampleCandles_low_high :
    ∀ r ∈ sampleCandles,
      candleLow intRuntime r = candleHigh intRuntime r ∨
        intRuntime.lt (candleLow intRuntime r) (candleHigh intRuntime r) = true := by
  intro r hr
  simp only [sampleCandles, List.mem_cons, List.mem_singleton, List.not_mem_nil, or_false] at hr
  rcases hr with h | h | h <;> subst h <;> exact Or.inr rfl

/-- Witness of C18 as amended, on `sampleCandles`. -/
theorem ExtractCandles_spread_witness :
    StrictOrder intRuntime ∧ RowsOK sampleCandles ∧ TimesOK intRuntime sampleCandles ∧
    PricesComparable intRuntime sampleCandles ∧ SpreadsNonneg intRuntime sampleCandles ∧
    (∀ r ∈ sampleCandles,
      candleLow intRuntime r = candleHigh intRuntime r ∨
        intRuntime.lt (candleLow intRuntime r) (candleHigh intRuntime r) = true) ∧
    (∃ m, ExtractCandles intRuntime sampleCandles = .ok m ∧
      ∀ entry ∈ m,
        (entry.2.minPrice = entry.2.maxPrice ∨
          intRuntime.lt entry.2.minPrice entry.2.maxPrice = true) ∧
        (entry.2.income = intRuntime.zero ∨
          intRuntime.lt intRuntime.zero entry.2.income = true)) ∧
    ∃ m note, ExtractCandles isoRuntime [["BTC", "2023-01-01T00:00:00Z", "", "90", "100"]] =
        .ok m ∧ m.find "BTC" = some note ∧ note.income = -10000000 ∧
      isoRuntime.lt note.income isoRuntime.zero = true :=
  ⟨intRuntime_strictOrder, sampleCandles_rowsOK, sampleCandles_timesOK,
    intRuntime_comparable sampleCandles, intRuntime_spreads sampleCandles,
    sampleCandles_low_high,
    ExtractCandles_spread intRuntime intRuntime_strictOrder sampleCandles sampleCandles_rowsOK
      sampleCandles_timesOK (intRuntime_comparable sampleCandles)
      (intRuntime_spreads sampleCandles) sampleCandles_low_high⟩

/-! ## Independence of the keys -/

section Frame

variable {F T E : Type}

theorem foldl_summaryStep_filter (rt : Runtime F T E) (k : String)
    (rows : List (List String)) :
    ∀ old : Option (CandleNote F T),
      (candlesOf k rows).foldl (summaryStep rt k) old = rows.foldl (summaryStep rt k) old := by
  induction rows with
  | nil => intro old; rfl
  | cons r rest ih =>
    intro old
    by_cases h : candleName r = k
    · simp only [candlesOf, List.filter_cons, h, decide_True, if_true, List.foldl_cons]
      exact ih _
    · have hstep : summaryStep rt k old r = old := by simp [summaryStep, h]
      simp only [candlesOf, List.filter_cons, h, decide_False, List.foldl_cons, hstep]
      exact ih _

/-- C19: aggregation is independent per key.  The summary that `ExtractCandles`
returns for an instrument `k` is the one it returns on the rows of `k` alone,
and the ticker that `ExtractUsersTrans` returns for a pair `(u, i)` is the one
it returns on the rows of that pair alone: rows of other instruments, of other
users, or of the same user on another instrument do not change it. -/
theorem aggregation_per_key (rt : Runtime F T E) (candles users : List (List String))
    (hcandles : RowsOK candles) (htimes : TimesOK rt candles) (husers : RowsOK users)
    (k u i : String) :
    (∃ m mk, ExtractCandles rt candles = .ok m ∧
      ExtractCandles rt (candlesOf k candles) = .ok mk ∧ mk.find k = m.find k) ∧
    ∃ m mp, ExtractUsersTrans rt users = some m ∧
      ExtractUsersTrans rt (users.filter (tradeOf u i)) = some mp ∧
      tickerOf mp u i = tickerOf m u i := by
  constructor
  · obtain ⟨m, hm, hfind⟩ := candleLoop_find rt candles [] hcandles htimes
    obtain ⟨mk, hmk, hfindk⟩ := candleLoop_find rt (candlesOf k candles) []
      (fun r hr => hcandles r (List.mem_of_mem_filter hr))
      (fun r hr => htimes r (List.mem_of_mem_filter hr))
    refine ⟨m, mk, hm, hmk, ?_⟩
    rw [hfindk k, hfind k, foldl_summaryStep_filter]
  · obtain ⟨m, hm, hfind⟩ := ExtractUsersTrans_tickerOf rt users husers
    obtain ⟨mp, hmp, hfindp⟩ := ExtractUsersTrans_tickerOf rt (users.filter (tradeOf u i))
      (fun r hr => husers r (List.mem_of_mem_filter hr))
    refine ⟨m, mp, hm, hmp, ?_⟩
    rw [hfindp u i, hfind u i, List.filter_filter]
    simp

end Frame

/-- Witness of C19 on the samples, the instrument `BTC` and the pair
`(ann, BTC)`. -/
theorem aggregation_per_key_witness :
    RowsOK sampleCandles ∧ TimesOK intRuntime sampleCandles ∧ RowsOK sampleTrades ∧
    (∃ m mk, ExtractCandles intRuntime sampleCandles = .ok m ∧
      ExtractCandles intRuntime (candlesOf "BTC" sampleCandles) = .ok mk ∧
      mk.find "BTC" = m.find "BTC") ∧
    ∃ m mp, ExtractUsersTrans intRuntime sampleTrades = some m ∧
      ExtractUsersTrans intRuntime (sampleTrades.filter (tradeOf "ann" "BTC")) = some mp ∧
      tickerOf mp "ann" "BTC" = tickerOf m "ann" "BTC" :=
  ⟨sampleCandles_rowsOK, sampleCandles_timesOK, sampleTrades_rowsOK,
    aggregation_per_key intRuntime sampleCandles sampleTrades sampleCandles_rowsOK
      sampleCandles_timesOK sampleTrades_rowsOK "BTC" "ann" "BTC"⟩

/-! ## Reads past the end of a row -/

section Bounds

variable {F T E : Type}

theorem candleStep_short (rt : Runtime F T E) (m : GoMap (CandleNote F T))
    (r : List String) (t : T) (hlen : r.length < 5) (ht : candleTime rt r = some t) :
    candleStep rt m r = .error .indexOutOfRange := by
  have hp : rt.parseTime (field r 1) = .ok t := by
    unfold candleTime at ht
    cases hq : rt.parseTime (field r 1) with
    | error e => simp [hq] at ht
    | ok t1 =>
      simp only [hq, Option.some.injEq] at ht
      rw [ht]
  match r, hlen, hp with
  | [], _, _ => rfl
  | [_], _, _ => rfl
  | [c0, c1], _, hp =>
    have hp1 : rt.parseTime c1 = .ok t := hp
    simp [candleStep, hp1]
  | [c0, c1, c2], _, hp =>
    have hp1 : rt.parseTime c1 = .ok t := hp
    simp [candleStep, hp1]
  | [c0, c1, c2, c3], _, hp =>
    have hp1 : rt.parseTime c1 = .ok t := hp
    simp [candleStep, hp1]
  | _ :: _ :: _ :: _ :: _ :: _, hlen, _ =>
    simp only [List.length_cons] at hlen
    omega

theorem candleLoop_short (rt : Runtime F T E) (r : List String) (post : List (List String))
    (t : T) (hlen : r.length < 5) (ht : candleTime rt r = some t)
    (pre : List (List String)) :
    ∀ m : GoMap (CandleNote F T), RowsOK pre → TimesOK rt pre →
      candleLoop rt m (pre ++ r :: post) = .error .indexOutOfRange := by
  induction pre with
  | nil =>
    intro m _ _
    simp [candleLoop, candleStep_short rt m r t hlen ht]
  | cons x rest ih =>
    intro m hrows htime
    obtain ⟨tx, htx⟩ := htime x (List.mem_cons_self _ _)
    have hstep := candleStep_ok rt m x tx (hrows x (List.mem_cons_self _ _)) htx
    simp only [List.cons_append, candleLoop, hstep]
    exact ih _ (fun y hy => hrows y (List.mem_cons_of_mem _ hy))
      (fun y hy => htime y (List.mem_cons_of_mem _ hy))

/-- C20: on rows that all have at least five fields, `ExtractCandles` and
`ExtractUsersTrans` never read a field past the end of a row and both end with a
result: `ExtractCandles` returns a map or the error of a timestamp, never the
out-of-range outcome, and `ExtractUsersTrans` returns a map.  A candle row with
a timestamp that parses and fewer than five fields, reached after rows that are
processed, does end in the out-of-range read. -/
theorem reads_in_range (rt : Runtime F T E) (candles users : List (List String))
    (hcandles : RowsOK candles) (husers : RowsOK users)
    (pre post : List (List String)) (r : List String) (t : T)
    (hpre : RowsOK pre) (hpretimes : TimesOK rt pre)
    (hshort : r.length < 5) (ht : candleTime rt r = some t) :
    ((∃ m, ExtractCandles rt candles = .ok m) ∨
      ∃ e, ExtractCandles rt candles = .error (.returned e)) ∧
    ExtractCandles rt candles ≠ .error .indexOutOfRange ∧
    (∃ m, ExtractUsersTrans rt users = some m) ∧
    ExtractCandles rt (pre ++ r :: post) = .error .indexOutOfRange := by
  have hres : (∃ m, ExtractCandles rt candles = .ok m) ∨
      ∃ e, ExtractCandles rt candles = .error (.returned e) := by
    cases hb : firstBadTime rt candles with
    | none =>
      obtain ⟨m, hm, _⟩ := candleLoop_find rt candles [] hcandles
        (timesOK_of_firstBadTime rt candles hb)
      exact Or.inl ⟨m, hm⟩
    | some rb =>
      obtain ⟨e, _, herr⟩ := ExtractCandles_firstBadTime rt candles hcandles rb hb
      exact Or.inr ⟨e, herr⟩
  refine ⟨hres, ?_, ?_, candleLoop_short rt r post t hshort ht pre [] hpre hpretimes⟩
  · intro hbad
    rcases hres with ⟨m, hm⟩ | ⟨e, he⟩
    · rw [hm] at hbad
      cases hbad
    · rw [he] at hbad
      cases hbad
  · obtain ⟨m, hm, _⟩ := usersLoop_tickerOf rt users [] husers
    exact ⟨m, hm⟩

end Bounds

/-- Witness of C20: the samples have their fields, and the four-field row
`BTC, 3, 96, 120` put after `sampleCandles` ends in the out-of-range read. -/
theorem reads_in_range_witness :
    RowsOK brokenCandles ∧ RowsOK sampleTrades ∧ RowsOK sampleCandles ∧
    TimesOK intRuntime sampleCandles ∧ ["BTC", "3", "96", "120"].length < 5 ∧
    candleTime intRuntime ["BTC", "3", "96", "120"] = some 3 ∧
    ((∃ m, ExtractCandles intRuntime brokenCandles = .ok m) ∨
      ∃ e, ExtractCandles intRuntime brokenCandles = .error (.returned e)) ∧
    ExtractCandles intRuntime brokenCandles ≠ .error .indexOutOfRange ∧
    (∃ m, ExtractUsersTrans intRuntime sampleTrades = some m) ∧
    ExtractCandles intRuntime (sampleCandles ++ ["BTC", "3", "96", "120"] :: []) =
      .error .indexOutOfRange :=
  ⟨brokenCandles_rowsOK, sampleTrades_rowsOK, sampleCandles_rowsOK, sampleCandles_timesOK,
    by decide, rfl,
    reads_in_range intRuntime brokenCandles sampleTrades brokenCandles_rowsOK
      sampleTrades_rowsOK sampleCandles [] ["BTC", "3", "96", "120"] 3 sampleCandles_rowsOK
      sampleCandles_timesOK (by decide) rfl⟩

/-! ## Timestamps with a UTC offset -/

/-- C16, the run of the code on a timestamp with the offset +02:00: the candle
timestamp `2023-01-01T02:00:00+02:00` is the instant 1672531200, and both window
fields of the output row read `2023-01-01T02:00:00Z`, which is the instant
1672538400, two hours later. -/
theorem FormatData_offset_instant :
    ∃ cm um t t1, ExtractCandles isoRuntime offsetCandles = .ok cm ∧
      ExtractUsersTrans isoRuntime offsetTrades = some um ∧
      FormatData isoRuntime cm um =
        [["u", "BTC", "0.00", "10.00", "10.00", "2023-01-01T02:00:00Z",
          "2023-01-01T02:00:00Z"]] ∧
      isoRuntime.parseTime "2023-01-01T02:00:00+02:00" = .ok t ∧
      unixSeconds t = 1672531200 ∧
      isoRuntime.parseTime "2023-01-01T02:00:00Z" = .ok t1 ∧
      unixSeconds t1 = 1672538400 :=
  ⟨_, _, _, _, rfl, rfl, by decide, rfl, rfl, rfl, rfl⟩

/-! ## The written numbers of a row -/

section Rounding

variable {F T E : Type}

/-- C17, the run of the code on a candle income 0.014 and a user income 0.006:
the three numeric fields of the row all read `0.01`, so the written shortfall
0.01 is not the written maxIncome minus the written userIncome, which is 0. -/
theorem FormatData_rounding :
    ∃ cm um, ExtractCandles isoRuntime roundingCandles = .ok cm ∧
      ExtractUsersTrans isoRuntime roundingTrades = some um ∧
      FormatData isoRuntime cm um =
        [["u", "BTC", "0.01", "0.01", "0.01", "2023-01-01T00:00:00Z",
          "2023-01-01T00:00:00Z"]] ∧
      written isoRuntime "0.01" ≠
        isoRuntime.sub (written isoRuntime "0.01") (written isoRuntime "0.01") :=
  ⟨_, _, rfl, rfl, by decide, by decide⟩

/-- C17 as amended: the shortfall field of the row of a pair is the 2-decimal
rendering of the candle income minus the user income, taken before rounding; and
when the candle income, the user income and their difference have at most two
decimal digits, the number written in the shortfall field is the number written
in the maxIncome field minus the number written in the userIncome field. -/
theorem FormatData_written (rt : Runtime F T E) (cm : GoMap (CandleNote F T))
    (um : GoMap (UserNote F)) (u i : String) (note : UserNote F) (ticker : GoMap F)
    (hu : um.find u = some note) (hi : note.tickers.find i = some ticker)
    (hmax : TwoDecimals rt (cm.findD i (CandleNote.zeroValue rt)).income)
    (huser : TwoDecimals rt (ticker.findD "income" rt.zero))
    (hdiff : TwoDecimals rt (rt.sub (cm.findD i (CandleNote.zeroValue rt)).income
      (ticker.findD "income" rt.zero))) :
    ∃ row ∈ FormatData rt cm um, rowPair row = (u, i) ∧
      field row 4 = rt.sprintf2 (rt.sub (cm.findD i (CandleNote.zeroValue rt)).income
        (ticker.findD "income" rt.zero)) ∧
      written rt (field row 4) =
        rt.sub (written rt (field row 3)) (written rt (field row 2)) := by
  refine ⟨formatLine rt cm u i ticker, formatLine_mem rt cm um u i note ticker hu hi,
    rfl, rfl, ?_⟩
  have h2 : field (formatLine rt cm u i ticker) 2 =
      rt.sprintf2 (ticker.findD "income" rt.zero) := rfl
  have h3 : field (formatLine rt cm u i ticker) 3 =
      rt.sprintf2 (cm.findD i (CandleNote.zeroValue rt)).income := rfl
  have h4 : field (formatLine rt cm u i ticker) 4 =
      rt.sprintf2 (rt.sub (cm.findD i (CandleNote.zeroValue rt)).income
        (ticker.findD "income" rt.zero)) := rfl
  rw [h2, h3, h4]
  unfold TwoDecimals at hmax huser hdiff
  rw [hmax, huser, hdiff]

end Rounding

/-- Witness of C17 as amended, on the summary of `BTC` with income 30 and a
ticker with income 15. -/
theorem FormatData_written_witness :
    GoMap.find [("u", (⟨"u", [("BTC", [("buyPrice", 95000000), ("salePrice", 110000000),
        ("income", 15000000)])]⟩ : UserNote Int))] "u" =
      some ⟨"u", [("BTC", [("buyPrice", 95000000), ("salePrice", 110000000),
        ("income", 15000000)])]⟩ ∧
    TwoDecimals isoRuntime (btcSummary.findD "BTC" (CandleNote.zeroValue isoRuntime)).income ∧
    TwoDecimals isoRuntime (GoMap.findD [("buyPrice", 95000000), ("salePrice", 110000000),
      ("income", 15000000)] "income" isoRuntime.zero) ∧
    ∃ row ∈ FormatData isoRuntime btcSummary
        [("u", ⟨"u", [("BTC", [("buyPrice", 95000000), ("salePrice", 110000000),
          ("income", 15000000)])]⟩)],
      rowPair row = ("u", "BTC") ∧
      field row 4 = isoRuntime.sprintf2 (isoRuntime.sub
        (btcSummary.findD "BTC" (CandleNote.zeroValue isoRuntime)).income
        (GoMap.findD [("buyPrice", 95000000), ("salePrice", 110000000),
          ("income", 15000000)] "income" isoRuntime.zero)) ∧
      written isoRuntime (field row 4) =
        isoRuntime.sub (written isoRuntime (field row 3)) (written isoRuntime (field row 2)) :=
  ⟨by decide, rfl, rfl,
    FormatData_written isoRuntime btcSummary
      [("u", ⟨"u", [("BTC", [("buyPrice", 95000000), ("salePrice", 110000000),
        ("income", 15000000)])]⟩)] "u" "BTC"
      ⟨"u", [("BTC", [("buyPrice", 95000000), ("salePrice", 110000000),
        ("income", 15000000)])]⟩
      [("buyPrice", 95000000), ("salePrice", 110000000), ("income", 15000000)]
      (by decide) (by decide) rfl rfl rfl⟩

/-! ## NaN among the prices -/

/-- C1, the run of the code on two rows of `BTC` whose high prices are NaN and
120: with the NaN row first the stored `maxPrice` is NaN, which is not at or
above the high price 120, and with the same rows in the other order it is 120;
so `maxPrice` is not the maximum of the high prices of the rows. -/
theorem ExtractCandles_nan_high :
    ExtractCandles ieeeRuntime nanFirst =
      .ok [("BTC", ⟨"BTC", .fin 90000000, .nan, .nan,
        ⟨2023, 1, 1, 0, 0, 0, 0, 0⟩, ⟨2023, 1, 1, 0, 0, 0, 0, 0⟩⟩)] ∧
    ExtractCandles ieeeRuntime nanLast =
      .ok [("BTC", ⟨"BTC", .fin 90000000, .fin 120000000, .fin 30000000,
        ⟨2023, 1, 1, 0, 0, 0, 0, 0⟩, ⟨2023, 1, 1, 0, 5, 0, 0, 0⟩⟩)] ∧
    nanFirst.Perm nanLast ∧
    candleHigh ieeeRuntime ["BTC", "2023-01-01T00:05:00Z", "", "120", "95"] =
      .fin 120000000 ∧
    GoFloat.le (.fin 120000000) .nan = false :=
  ⟨rfl, rfl, List.Perm.swap _ _ _, rfl, rfl⟩

/-- C13, the run of the code on two rows of `BTC`, one with the prices NaN and
one with high 120 and low 95, in both orders: the two lists are permutations of
each other and their timestamps parse, and the summaries differ in `minPrice`,
`maxPrice` and `income`. -/
theorem ExtractCandles_perm_nan :
    nanRows.Perm nanRows.reverse ∧
    ExtractCandles ieeeRuntime nanRows =
      .ok [("BTC", ⟨"BTC", .nan, .nan, .nan,
        ⟨2023, 1, 1, 0, 0, 0, 0, 0⟩, ⟨2023, 1, 1, 0, 0, 0, 0, 0⟩⟩)] ∧
    ExtractCandles ieeeRuntime nanRows.reverse =
      .ok [("BTC", ⟨"BTC", .fin 95000000, .fin 120000000, .fin 25000000,
        ⟨2023, 1, 1, 0, 5, 0, 0, 0⟩, ⟨2023, 1, 1, 0, 5, 0, 0, 0⟩⟩)] :=
  ⟨(List.reverse_perm nanRows).symm, rfl, rfl⟩

section Extremes

variable {F T E : Type} [DecidableEq F]

/-- C1 as amended: for candle rows with their five fields, timestamps that all
parse and prices that are ordered numbers (any two parsed prices are equal or
one is below the other, so none is NaN), and an instrument `k` that occurs among
them, `ExtractCandles` returns a map with a summary for `k` whose `maxPrice` is
the maximum of the high prices of the rows of `k`, the high price of one of them
with every other equal to it or below it, and whose `minPrice` is the minimum of
their low prices, the low price of one of them with every other equal to it or
above it. -/
theorem ExtractCandles_max_min (rt : Runtime F T E) (hord : StrictOrder rt)
    (candles : List (List String)) (hrows : RowsOK candles) (htimes : TimesOK rt candles)
    (hcmp : PricesComparable rt candles) (k : String)
    (hk : ∃ r ∈ candles, candleName r = k) :
    ∃ m note, ExtractCandles rt candles = .ok m ∧ m.find k = some note ∧
      (∃ r ∈ candles, candleName r = k ∧ candleHigh rt r = note.maxPrice) ∧
      (∀ r ∈ candles, candleName r = k →
        candleHigh rt r = note.maxPrice ∨ rt.lt (candleHigh rt r) note.maxPrice = true) ∧
      (∃ r ∈ candles, candleName r = k ∧ candleLow rt r = note.minPrice) ∧
      (∀ r ∈ candles, candleName r = k →
        candleLow rt r = note.minPrice ∨ rt.lt note.minPrice (candleLow rt r) = true) := by
  obtain ⟨m, note, hm, hfind, ⟨rc, hrc, hrck, hrchigh⟩, hmax, ⟨ra, hra, hrak, hralow⟩, hmin⟩ :=
    ExtractCandles_unexceeded rt hord candles hrows htimes k hk
  refine ⟨m, note, hm, hfind, ⟨rc, hrc, hrck, hrchigh⟩, ?_, ⟨ra, hra, hrak, hralow⟩, ?_⟩
  · intro r hr hrk
    have hc := hcmp _ (mem_prices_high rt hr) _ (mem_prices_high rt hrc)
    rw [hrchigh] at hc
    rcases hc with h | h | h
    · exact Or.inr h
    · exact Or.inl h
    · rw [hmax r hr hrk] at h
      exact absurd h (by simp)
  · intro r hr hrk
    have hc := hcmp _ (mem_prices_low rt hr) _ (mem_prices_low rt hra)
    rw [hralow] at hc
    rcases hc with h | h | h
    · rw [hmin r hr hrk] at h
      exact absurd h (by simp)
    · exact Or.inl h
    · exact Or.inr h

end Extremes

/-- Witness of C1 as amended, on `sampleCandles` and the instrument `BTC`. -/
theorem ExtractCandles_max_min_witness :
    StrictOrder intRuntime ∧ RowsOK sampleCandles ∧ TimesOK intRuntime sampleCandles ∧
    PricesComparable intRuntime sampleCandles ∧
    (∃ r ∈ sampleCandles, candleName r = "BTC") ∧
    ∃ m note, ExtractCandles intRuntime sampleCandles = .ok m ∧ m.find "BTC" = some note ∧
      (∃ r ∈ sampleCandles, candleName r = "BTC" ∧ candleHigh intRuntime r = note.maxPrice) ∧
      (∀ r ∈ sampleCandles, candleName r = "BTC" →
        candleHigh intRuntime r = note.maxPrice ∨
          intRuntime.lt (candleHigh intRuntime r) note.maxPrice = true) ∧
      (∃ r ∈ sampleCandles, candleName r = "BTC" ∧ candleLow intRuntime r = note.minPrice) ∧
      (∀ r ∈ sampleCandles, candleName r = "BTC" →
        candleLow intRuntime r = note.minPrice ∨
          intRuntime.lt note.minPrice (candleLow intRuntime r) = true) :=
  ⟨intRuntime_strictOrder, sampleCandles_rowsOK, sampleCandles_timesOK,
    intRuntime_comparable sampleCandles, ⟨_, List.mem_cons_self _ _, rfl⟩,
    ExtractCandles_max_min intRuntime intRuntime_strictOrder sampleCandles
      sampleCandles_rowsOK sampleCandles_timesOK (intRuntime_comparable sampleCandles) "BTC"
      ⟨_, List.mem_cons_self _ _, rfl⟩⟩

/-- The comparison of `ieeeRuntime` is irreflexive and transitive, NaN and the
infinities included. -/
theorem ieeeRuntime_strictOrder : StrictOrder ieeeRuntime := by
  constructor
  · intro a
    cases a <;> simp [ieeeRuntime, GoFloat.lt]
  · intro a b c hab hbc
    cases a <;> cases b <;> cases c <;>
      simp only [ieeeRuntime, GoFloat.lt, decide_eq_true_eq, Bool.false_eq_true] at hab hbc ⊢
    omega

end Hw1
